import Mathlib

/-!
# Verification of the ClumsyGrad automatic-differentiation core

A shallow embedding of `src/clumsygrad/tensor.py`: the `Tensor` node model,
the graph-building factory `_create_node`, the arithmetic/shape operations,
the stale-node reclaimer `clear_stale_tensors`, and the `backward` pass
(topological ordering, gradient dispatch, accumulation, memory policy).

Modelling conventions:
* Python object identity becomes the integer `_id`; the heap of live tensor
  objects is an association list `nodes : List (Nat × Tensor)` and the weak
  registry `_global_tensor_registry` is the list of currently registered ids.
  Tensors removed from the registry stay in `nodes` (in Python the objects
  survive as long as graph links reference them).
* `numpy.float32` buffers become `NArray`: a shape together with a flattened
  row-major list of integers (the library exposes only ring operations —
  add, subtract, multiply, matrix product, negate, reshape, transpose — and
  every numeric value exercised here is a small integer, on which float32
  arithmetic is exact).
* Mutation becomes explicit state passing; `raise` becomes an error value
  returned alongside the (unchanged, or partially mutated, exactly as in the
  source) state.
* The recursive depth-first `build_topo` receives explicit fuel; parents
  always carry smaller ids than their children, so fuel `id + 1` reproduces
  the unbounded Python recursion (made precise by `WFb` below).
* `grad.py` is not part of the sources under verification; the gradient
  functions it provides are modelled from the spec's gradient-function
  contract (see `applyGradFn`).
-/

namespace ClumsyGrad

/-- A dense numeric buffer: shape plus row-major flattened data
(models a `numpy` array of `float32`; values are exact integers). -/
structure NArray where
  shape : List Nat
  flat : List Int
deriving DecidableEq, Repr

namespace NArray

/-- Number of elements described by the shape (`numpy`'s `.size`). -/
def size (a : NArray) : Nat := a.shape.foldl (· * ·) 1

/-- `np.ones_like`: a buffer of ones with the same shape. -/
def onesLike (a : NArray) : NArray := ⟨a.shape, List.replicate a.flat.length 1⟩

/-- Element-wise addition of same-shape buffers (`+` on equal-shape arrays,
also the gradient-accumulation addition). -/
def addN (a b : NArray) : NArray := ⟨a.shape, List.zipWith (· + ·) a.flat b.flat⟩

/-- Element-wise subtraction of same-shape buffers. -/
def subN (a b : NArray) : NArray := ⟨a.shape, List.zipWith (· - ·) a.flat b.flat⟩

/-- Element-wise multiplication of same-shape buffers. -/
def mulN (a b : NArray) : NArray := ⟨a.shape, List.zipWith (· * ·) a.flat b.flat⟩

/-- Element-wise negation. -/
def negN (a : NArray) : NArray := ⟨a.shape, a.flat.map (fun v => -v)⟩

/-- Scalar broadcast addition (`array + scalar`). -/
def addS (a : NArray) (c : Int) : NArray := ⟨a.shape, a.flat.map (fun v => v + c)⟩

/-- Scalar broadcast subtraction (`array - scalar`). -/
def subS (a : NArray) (c : Int) : NArray := ⟨a.shape, a.flat.map (fun v => v - c)⟩

/-- Scalar broadcast multiplication (`array * scalar`). -/
def mulS (a : NArray) (c : Int) : NArray := ⟨a.shape, a.flat.map (fun v => v * c)⟩

/-- Row-major flattening of a multi-index. -/
def flattenIdx (shape idx : List Nat) : Nat :=
  (List.zip shape idx).foldl (fun acc di => acc * di.1 + di.2) 0

/-- Inverse of row-major flattening. -/
def unflatten : List Nat → Nat → List Nat
  | [], _ => []
  | d :: ds, k =>
    let block := ds.foldl (· * ·) 1
    have : d = d := rfl
    (k / block % d) :: unflatten ds (k % block)

/-- `numpy`'s `.T`: reverse the axes.  Entry at multi-index `i` of the result
is the entry at the reversed multi-index of the argument. -/
def transposeData (a : NArray) : NArray :=
  let sh := a.shape.reverse
  ⟨sh, (List.range a.size).map
    (fun k => a.flat.getD (flattenIdx a.shape (unflatten sh k).reverse) 0)⟩

/-- `numpy`'s `reshape`: same row-major data, new shape. -/
def reshapeData (a : NArray) (newShape : List Nat) : NArray := ⟨newShape, a.flat⟩

/-- Matrix product (`@`).  The operations in the source require at least two
dimensions; the two-dimensional case is the one realised here (no property in
this development inspects the data buffer of a higher-rank batched product,
whose result shape is still recorded). -/
def matData (a b : NArray) : NArray :=
  match a.shape, b.shape with
  | [m, k], [_, n] =>
    ⟨[m, n], (List.range (m * n)).map (fun idx =>
      let i := idx / n
      let j := idx % n
      (List.range k).foldl
        (fun acc t => acc + a.flat.getD (i * k + t) 0 * b.flat.getD (t * n + j) 0) 0)⟩
  | _, _ => ⟨a.shape.dropLast ++ b.shape.drop (b.shape.length - 1), []⟩

end NArray

/-- `TensorType` from the source (`IntEnum` with INPUT/PARAMETER/INTERMEDIATE). -/
inductive TensorType where
  | INPUT
  | PARAMETER
  | INTERMEDIATE
deriving DecidableEq, Repr

/-- The gradient functions of the operation library, as tags.  Their meaning
is given by `applyGradFn`. -/
inductive GradFnTag where
  | add_backward
  | add_scalar_backward
  | sub_backward
  | sub_scalar_backward
  | mul_backward
  | mul_scalar_backward
  | matmul_backward
  | reshape_backward
  | transpose_backward
deriving DecidableEq, Repr

/-- Values stored in a tensor's `_extra` metadata dictionary. -/
inductive ExtraVal where
  | num (q : Int)
  | shp (s : List Nat)
deriving DecidableEq, Repr

/-- The `Tensor` node (fields `_data`, `_grad_fn`, `_grad`, `_tensor_type`,
`_requires_grad`, `_stale`, `_parents`, `_children`, `_extra`, `_version`;
`_shape` is derived as `data.shape`, `_id` is the key in the state's heap). -/
structure Tensor where
  data : NArray
  grad_fn : Option GradFnTag
  grad : Option NArray
  tensor_type : TensorType
  requires_grad : Bool
  stale : Bool
  parents : List Nat
  children : List Nat
  extra : List (String × ExtraVal)
  version : Nat
deriving DecidableEq, Repr

/-- Global state: the heap of live tensor objects keyed by `_id`, the ids
currently present in `_global_tensor_registry`, and the `_id_counter`. -/
structure GState where
  nodes : List (Nat × Tensor)
  registry : List Nat
  nextId : Nat
deriving DecidableEq, Repr

/-- The empty process state. -/
def emptyState : GState := ⟨[], [], 0⟩

/-- Dereference an id (Python: holding a reference to the object). -/
def lookupNode (s : GState) (i : Nat) : Option Tensor :=
  (s.nodes.find? (fun kt => kt.1 = i)).map (·.2)

/-- Mutate the tensor object with id `i` in place. -/
def updateNode (s : GState) (i : Nat) (f : Tensor → Tensor) : GState :=
  { s with nodes := s.nodes.map (fun kt => if kt.1 = i then (kt.1, f kt.2) else kt) }

/-- `_parents` of the node with id `i` (empty if the id is dangling). -/
def parentsOf (s : GState) (i : Nat) : List Nat :=
  ((lookupNode s i).map (·.parents)).getD []

/-- `_children` of the node with id `i`. -/
def childrenOf (s : GState) (i : Nat) : List Nat :=
  ((lookupNode s i).map (·.children)).getD []

/-- `_stale` flag of the node with id `i`. -/
def staleOf (s : GState) (i : Nat) : Bool :=
  ((lookupNode s i).map (·.stale)).getD false

/-- `_requires_grad` flag of the node with id `i`. -/
def rgOf (s : GState) (i : Nat) : Bool :=
  ((lookupNode s i).map (·.requires_grad)).getD false

/-- `_grad` of the node with id `i`. -/
def gradOf (s : GState) (i : Nat) : Option NArray :=
  ((lookupNode s i).map (·.grad)).getD none

/-- `Tensor.__init__`: build a fresh tensor of the given type, register it,
and advance the id counter.  `requires_grad` is true exactly for
`PARAMETER` tensors. -/
def mkTensor (s : GState) (data : NArray) (tt : TensorType) : GState × Nat :=
  let t : Tensor :=
    { data := data
      grad_fn := none
      grad := none
      tensor_type := tt
      requires_grad := tt = TensorType.PARAMETER
      stale := false
      parents := []
      children := []
      extra := []
      version := 0 }
  (⟨(s.nextId, t) :: s.nodes, s.registry ++ [s.nextId], s.nextId + 1⟩, s.nextId)

/-- `Tensor._create_node`: the Graph Builder.  Creates an INTERMEDIATE
tensor, attaches the gradient function, parents and metadata, recomputes
`requires_grad` as the disjunction over the parents, and appends the new
node to every parent's `children` list. -/
def create_node (s : GState) (data : NArray) (gfn : Option GradFnTag)
    (parents : List Nat) (extra : List (String × ExtraVal)) : GState × Nat :=
  let (s1, nid) := mkTensor s data TensorType.INTERMEDIATE
  let rg := parents.any (fun p => rgOf s1 p)
  let s2 := updateNode s1 nid (fun t =>
    { t with grad_fn := gfn, parents := parents, requires_grad := rg, extra := extra })
  let s3 := parents.foldl
    (fun a p => updateNode a p (fun t => { t with children := t.children ++ [nid] })) s2
  (s3, nid)

/-- Python's `list.remove`: drop the first occurrence. -/
def removeFirst : List Nat → Nat → List Nat
  | [], _ => []
  | a :: as_, x => if a = x then as_ else a :: removeFirst as_ x

/-- One iteration of the reclaimer's loop body, for registry entry `i`. -/
def clearStep (s : GState) (i : Nat) : GState :=
  match lookupNode s i with
  | none => s
  | some t =>
    if t.stale then
      let s1 := t.parents.foldl
        (fun a p => updateNode a p
          (fun pt => { pt with children := removeFirst pt.children i })) s
      let s2 := t.children.foldl
        (fun a c => updateNode a c
          (fun ct => { ct with parents := ct.parents.filter (fun p => p ≠ i) })) s1
      { s2 with registry := s2.registry.erase i }
    else s

/-- `Tensor.clear_stale_tensors`: for every registered tensor flagged stale,
remove it from each parent's `children`, drop it (by id) from each child's
`parents`, and delete its registry entry.  The iteration runs over a snapshot
of the registry, as `list(...(values()))` does in the source. -/
def clear_stale_tensors (s : GState) : GState :=
  s.registry.foldl clearStep s

/-- A Python value that can appear as the right operand of an arithmetic
operator: a tensor or a scalar. -/
inductive PyVal where
  | tensor (i : Nat)
  | scalar (c : Int)
deriving DecidableEq, Repr

/-- `Tensor.__add__`. -/
def add (s : GState) (a : Nat) (other : PyVal) : GState × Except String Nat :=
  match lookupNode s a with
  | none => (s, Except.error "dangling id")
  | some ta =>
    match other with
    | PyVal.tensor b =>
      match lookupNode s b with
      | none => (s, Except.error "dangling id")
      | some tb =>
        if ta.data.shape ≠ tb.data.shape then
          (s, Except.error "Shape mismatch for addition")
        else
          let r := create_node s (NArray.addN ta.data tb.data)
            (some GradFnTag.add_backward) [a, b] []
          (r.1, Except.ok r.2)
    | PyVal.scalar c =>
      let r := create_node s (NArray.addS ta.data c)
        (some GradFnTag.add_scalar_backward) [a] [("scalar_value", ExtraVal.num c)]
      (r.1, Except.ok r.2)

/-- `Tensor.__radd__` delegates to `__add__`. -/
def radd (s : GState) (a : Nat) (other : PyVal) : GState × Except String Nat :=
  add s a other

/-- `Tensor.__sub__`. -/
def sub (s : GState) (a : Nat) (other : PyVal) : GState × Except String Nat :=
  match lookupNode s a with
  | none => (s, Except.error "dangling id")
  | some ta =>
    match other with
    | PyVal.tensor b =>
      match lookupNode s b with
      | none => (s, Except.error "dangling id")
      | some tb =>
        if ta.data.shape ≠ tb.data.shape then
          (s, Except.error "Shape mismatch for subtraction")
        else
          let r := create_node s (NArray.subN ta.data tb.data)
            (some GradFnTag.sub_backward) [a, b] []
          (r.1, Except.ok r.2)
    | PyVal.scalar c =>
      let r := create_node s (NArray.subS ta.data c)
        (some GradFnTag.sub_scalar_backward) [a] [("scalar_value", ExtraVal.num c)]
      (r.1, Except.ok r.2)

/-- `Tensor.__rsub__` delegates to `__sub__` (so `scalar - tensor` computes
`tensor.data - scalar`). -/
def rsub (s : GState) (a : Nat) (other : PyVal) : GState × Except String Nat :=
  sub s a other

/-- `Tensor.__mul__`. -/
def mul (s : GState) (a : Nat) (other : PyVal) : GState × Except String Nat :=
  match lookupNode s a with
  | none => (s, Except.error "dangling id")
  | some ta =>
    match other with
    | PyVal.tensor b =>
      match lookupNode s b with
      | none => (s, Except.error "dangling id")
      | some tb =>
        if ta.data.shape ≠ tb.data.shape then
          (s, Except.error "Shape mismatch for multiplication")
        else
          let r := create_node s (NArray.mulN ta.data tb.data)
            (some GradFnTag.mul_backward) [a, b] []
          (r.1, Except.ok r.2)
    | PyVal.scalar c =>
      let r := create_node s (NArray.mulS ta.data c)
        (some GradFnTag.mul_scalar_backward) [a] [("scalar_value", ExtraVal.num c)]
      (r.1, Except.ok r.2)

/-- `Tensor.__rmul__` delegates to `__mul__`. -/
def rmul (s : GState) (a : Nat) (other : PyVal) : GState × Except String Nat :=
  mul s a other

/-- `Tensor.__matmul__`: right operand must be a tensor, both operands at
least 2-dimensional, inner dimensions aligned. -/
def matmul (s : GState) (a : Nat) (other : PyVal) : GState × Except String Nat :=
  match lookupNode s a with
  | none => (s, Except.error "dangling id")
  | some ta =>
    match other with
    | PyVal.scalar _ =>
      (s, Except.error "Right operand must be a Tensor for matrix multiplication.")
    | PyVal.tensor b =>
      match lookupNode s b with
      | none => (s, Except.error "dangling id")
      | some tb =>
        if ta.data.shape.length < 2 ∨ tb.data.shape.length < 2 then
          (s, Except.error "Matrix multiplication requires at least 2D tensors.")
        else if ta.data.shape.getLastD 0 ≠ (tb.data.shape.drop (tb.data.shape.length - 2)).headD 0 then
          (s, Except.error "Matrix shapes not aligned")
        else
          let r := create_node s (NArray.matData ta.data tb.data)
            (some GradFnTag.matmul_backward) [a, b] []
          (r.1, Except.ok r.2)

/-- `Tensor.reshape`: the new shape must preserve the element count. -/
def reshape (s : GState) (a : Nat) (newShape : List Nat) : GState × Except String Nat :=
  match lookupNode s a with
  | none => (s, Except.error "dangling id")
  | some ta =>
    if newShape.foldl (· * ·) 1 ≠ ta.data.shape.foldl (· * ·) 1 then
      (s, Except.error "New shape must have the same number of elements as the original shape.")
    else
      let r := create_node s (NArray.reshapeData ta.data newShape)
        (some GradFnTag.reshape_backward) [a] [("original_shape", ExtraVal.shp ta.data.shape)]
      (r.1, Except.ok r.2)

/-- `Tensor.T`: transposing a node that is itself the transpose of exactly
one parent marks it stale and returns that parent; otherwise a fresh
transpose node is created. -/
def T (s : GState) (a : Nat) : GState × Nat :=
  match lookupNode s a with
  | none => (s, a)
  | some ta =>
    match ta.grad_fn, ta.parents with
    | some GradFnTag.transpose_backward, [p] =>
      (updateNode s a (fun t => { t with stale := true }), p)
    | _, _ =>
      create_node s (NArray.transposeData ta.data)
        (some GradFnTag.transpose_backward) [a] []

/-- Fetch a numeric entry of a tensor's `_extra` metadata. -/
def extraNum (t : Tensor) (key : String) : Int :=
  match (t.extra.find? (fun kv => kv.1 = key)).map (·.2) with
  | some (ExtraVal.num q) => q
  | _ => 0

/-- Fetch a shape entry of a tensor's `_extra` metadata. -/
def extraShape (t : Tensor) (key : String) : List Nat :=
  match (t.extra.find? (fun kv => kv.1 = key)).map (·.2) with
  | some (ExtraVal.shp sh) => sh
  | _ => []

/-- Modelled from the spec: the gradient functions provided by the `grad`
module (whose source is not under verification).  Each takes the node and
its accumulated outgoing gradient and returns one gradient buffer per
parent, in parent order, by the chain rule of its operation, reading parent
data and `_extra` metadata as the spec's gradient-function contract
describes. -/
def applyGradFn (s : GState) (t : Tensor) (f : GradFnTag) (g : NArray) : List NArray :=
  match f with
  | GradFnTag.add_backward => [g, g]
  | GradFnTag.add_scalar_backward => [g]
  | GradFnTag.sub_backward => [g, NArray.negN g]
  | GradFnTag.sub_scalar_backward => [g]
  | GradFnTag.mul_backward =>
    match t.parents with
    | [a, b] =>
      let da := ((lookupNode s a).map (·.data)).getD ⟨[], []⟩
      let db := ((lookupNode s b).map (·.data)).getD ⟨[], []⟩
      [NArray.mulN g db, NArray.mulN g da]
    | _ => []
  | GradFnTag.mul_scalar_backward => [NArray.mulS g (extraNum t "scalar_value")]
  | GradFnTag.matmul_backward =>
    match t.parents with
    | [a, b] =>
      let da := ((lookupNode s a).map (·.data)).getD ⟨[], []⟩
      let db := ((lookupNode s b).map (·.data)).getD ⟨[], []⟩
      [NArray.matData g (NArray.transposeData db), NArray.matData (NArray.transposeData da) g]
    | _ => []
  | GradFnTag.reshape_backward => [NArray.reshapeData g (extraShape t "original_shape")]
  | GradFnTag.transpose_backward => [NArray.transposeData g]

/-- One step of the accumulation loop of the backward pass: for a
`(parent, grad)` pair, if the parent requires gradients, set its `grad` when
absent and add element-wise otherwise. -/
def accStep (a : GState) (pg : Nat × NArray) : GState :=
  match lookupNode a pg.1 with
  | none => a
  | some pt =>
    if pt.requires_grad then
      match pt.grad with
      | none => updateNode a pg.1 (fun t => { t with grad := some pg.2 })
      | some og => updateNode a pg.1 (fun t => { t with grad := some (NArray.addN og pg.2) })
    else a

/-- The accumulation loop of the backward pass, over
`zip(node._parents, gradients)`. -/
def accumulate (s : GState) (pairs : List (Nat × NArray)) : GState :=
  pairs.foldl accStep s

/-- One iteration of the backward loop, for node `nid` (processing happens
only when the node has a `grad_fn` and a present `grad`; the memory-saving
policy then clears the grad of an intermediate node other than the output). -/
def processNode (s : GState) (selfId : Nat) (keep_grads : Bool) (nid : Nat) : GState :=
  match lookupNode s nid with
  | none => s
  | some t =>
    match t.grad_fn, t.grad with
    | some f, some g =>
      let grads := applyGradFn s t f g
      let s1 := accumulate s (t.parents.zip grads)
      if ¬ keep_grads ∧ t.tensor_type = TensorType.INTERMEDIATE ∧ nid ≠ selfId then
        updateNode s1 nid (fun u => { u with grad := none })
      else s1
    | _, _ => s

/-- The recursive `build_topo` of `Tensor.backward`: depth-first post-order
over `parents`, skipping already-visited ids and nodes that do not require
gradients.  The accumulator is `(visited, topo_order)`.  Fuel stands in for
the unbounded Python recursion; since every parent id is smaller than its
child's id, fuel `id + 1` suffices (see `WFb`). -/
def build_topo (s : GState) : Nat → Nat → List Nat × List Nat → List Nat × List Nat
  | 0, _, acc => acc
  | fuel + 1, nid, acc =>
    match lookupNode s nid with
    | none => acc
    | some t =>
      if nid ∈ acc.1 ∨ ¬ t.requires_grad then acc
      else
        let acc1 := (nid :: acc.1, acc.2)
        let acc2 := t.parents.foldl (fun a p => build_topo s fuel p a) acc1
        (acc2.1, acc2.2 ++ [nid])

/-- The straight-line tail of `Tensor.backward` once the seed gradient is
settled: build the reverse topological order, assign the seed to the output
node's `grad`, and process the order in reverse. -/
def backwardRun (s0 : GState) (selfId : Nat) (seed : NArray)
    (keep_grads : Bool) : GState :=
  let topo := (build_topo s0 (selfId + 1) selfId ([], [])).2
  let s1 := updateNode s0 selfId (fun u => { u with grad := some seed })
  topo.reverse.foldl (fun a nid => processNode a selfId keep_grads nid) s1

/-- `Tensor.backward`.  Returns the final state together with the raised
error, if any (Python raises after `clear_stale_tensors` has already run,
so the state of a failing call is the reclaimed one). -/
def backward (s : GState) (selfId : Nat) (gradient : Option NArray)
    (keep_grads : Bool) : GState × Option String :=
  let s0 := clear_stale_tensors s
  match lookupNode s0 selfId with
  | none => (s0, some "dangling id")
  | some t =>
    if ¬ t.requires_grad then
      (s0, some "Tensor does not require gradients")
    else
      match gradient with
      | none =>
        if t.data.size ≠ 1 then
          (s0, some "Gradient can only be implicitly created for scalar outputs")
        else
          (backwardRun s0 selfId (NArray.onesLike t.data) keep_grads, none)
      | some seed => (backwardRun s0 selfId seed keep_grads, none)

/-- Well-formedness of the heap: every parent link points to an existing
node with a strictly smaller id.  This holds for every state the library can
construct (ids increase monotonically and parents exist before children) and
is what makes the Python recursion in `build_topo` terminate. -/
def WFb (s : GState) : Bool :=
  s.nodes.all (fun kt =>
    kt.2.parents.all (fun p => decide (p < kt.1) && (lookupNode s p).isSome))

/-- Full structural invariant of a reachable state: distinct heap keys below
the id counter, well-formed parent links, a duplicate-free registry of
existing nodes closed under graph links, and parent/child link symmetry
counted with multiplicity. -/
def Invb (s : GState) : Bool :=
  decide (s.nodes.map Prod.fst).Nodup &&
  s.nodes.all (fun kt => decide (kt.1 < s.nextId)) &&
  WFb s &&
  decide s.registry.Nodup &&
  s.registry.all (fun i => (lookupNode s i).isSome) &&
  s.registry.all (fun i =>
    (parentsOf s i).all (fun p => p ∈ s.registry) &&
    (childrenOf s i).all (fun c => c ∈ s.registry)) &&
  s.registry.all (fun i => s.registry.all (fun q =>
    decide ((childrenOf s q).count i = (parentsOf s i).count q)))

/-- Reachability from `r` along `parents` through nodes that require
gradients (the paths along which `build_topo` descends). -/
inductive GReach (s : GState) (r : Nat) : Nat → Prop where
  | refl : rgOf s r = true → GReach s r r
  | step {j p : Nat} : GReach s r j → p ∈ parentsOf s j → rgOf s p = true → GReach s r p

end ClumsyGrad

/-! ## Basic state algebra -/

namespace ClumsyGrad

theorem lookup_aux (l : List (Nat × Tensor)) (i j : Nat) (f : Tensor → Tensor) :
    ((l.map (fun kt => if kt.1 = i then (kt.1, f kt.2) else kt)).find?
        (fun kt => kt.1 = j)).map (·.2)
      = if j = i then ((l.find? (fun kt => kt.1 = j)).map (·.2)).map f
        else (l.find? (fun kt => kt.1 = j)).map (·.2) := by
  induction l with
  | nil => by_cases h : j = i <;> simp [h]
  | cons kt rest ih =>
    simp only [List.map_cons]
    by_cases hki : kt.1 = i
    · rw [if_pos hki]
      by_cases hkj : kt.1 = j
      · rw [List.find?_cons_of_pos _ (by simp [hkj]),
          List.find?_cons_of_pos _ (by simp [hkj])]
        have hji : j = i := by rw [← hkj, hki]
        simp [hji]
      · rw [List.find?_cons_of_neg _ (by simp [hkj]),
          List.find?_cons_of_neg _ (by simp [hkj])]
        exact ih
    · rw [if_neg hki]
      by_cases hkj : kt.1 = j
      · rw [List.find?_cons_of_pos _ (by simp [hkj]),
          List.find?_cons_of_pos _ (by simp [hkj])]
        have hji : ¬ (j = i) := by rw [← hkj]; exact hki
        simp [hji]
      · rw [List.find?_cons_of_neg _ (by simp [hkj]),
          List.find?_cons_of_neg _ (by simp [hkj])]
        exact ih

theorem lookup_update (s : GState) (i : Nat) (f : Tensor → Tensor) (j : Nat) :
    lookupNode (updateNode s i f) j
      = if j = i then (lookupNode s j).map f else lookupNode s j := by
  unfold lookupNode updateNode
  exact lookup_aux s.nodes i j f

theorem lookup_update_self (s : GState) (i : Nat) (f : Tensor → Tensor) :
    lookupNode (updateNode s i f) i = (lookupNode s i).map f := by
  simp [lookup_update]

theorem lookup_update_ne (s : GState) (i : Nat) (f : Tensor → Tensor) (j : Nat)
    (h : j ≠ i) : lookupNode (updateNode s i f) j = lookupNode s j := by
  simp [lookup_update, h]

theorem registry_update (s : GState) (i : Nat) (f : Tensor → Tensor) :
    (updateNode s i f).registry = s.registry := rfl

theorem nextId_update (s : GState) (i : Nat) (f : Tensor → Tensor) :
    (updateNode s i f).nextId = s.nextId := rfl

theorem lookup_setRegistry (s : GState) (r : List Nat) (j : Nat) :
    lookupNode { s with registry := r } j = lookupNode s j := rfl

end ClumsyGrad

/-! ## Projection helpers: which fields an operation leaves untouched -/

namespace ClumsyGrad

/-- Forget the gradient of a tensor (to state that an operation changes
nothing but gradients). -/
def eraseGrad (t : Tensor) : Tensor := { t with grad := none }

/-- Forget the structural links of a tensor (to state that the reclaimer
changes nothing but links and the registry). -/
def eraseLinks (t : Tensor) : Tensor := { t with parents := [], children := [] }

theorem proj_update {β : Type} (P : Tensor → β) (f : Tensor → Tensor)
    (hf : ∀ t, P (f t) = P t) (s : GState) (i j : Nat) :
    (lookupNode (updateNode s i f) j).map P = (lookupNode s j).map P := by
  rw [lookup_update]
  split
  · cases lookupNode s j with
    | none => rfl
    | some t => simp [hf]
  · rfl

theorem proj_foldl {α : Type} {β : Type} (P : Tensor → β) (l : List α)
    (F : GState → α → GState)
    (h : ∀ a x j, (lookupNode (F a x) j).map P = (lookupNode a j).map P)
    (st : GState) (j : Nat) :
    (lookupNode (l.foldl F st) j).map P = (lookupNode st j).map P := by
  induction l generalizing st with
  | nil => rfl
  | cons x xs ih => rw [List.foldl_cons, ih, h]

theorem proj_trans {β : Type} {P : Tensor → Tensor} {Q : Tensor → β}
    (hQ : ∀ t, Q (P t) = Q t) {s s' : GState} {j : Nat}
    (h : (lookupNode s' j).map P = (lookupNode s j).map P) :
    (lookupNode s' j).map Q = (lookupNode s j).map Q := by
  cases h1 : lookupNode s' j with
  | none =>
    cases h2 : lookupNode s j with
    | none => rfl
    | some t => rw [h1, h2] at h; simp at h
  | some t1 =>
    cases h2 : lookupNode s j with
    | none => rw [h1, h2] at h; simp at h
    | some t2 =>
      rw [h1, h2] at h
      simp only [Option.map_some', Option.some.injEq] at h ⊢
      rw [← hQ t1, h, hQ t2]

/-! ## The Graph Builder: effect of `mkTensor` and `create_node` -/

/-- The tensor object `Tensor.__init__` constructs. -/
def initTensor (data : NArray) (tt : TensorType) : Tensor :=
  { data := data, grad_fn := none, grad := none, tensor_type := tt
    requires_grad := tt = TensorType.PARAMETER, stale := false
    parents := [], children := [], extra := [], version := 0 }

theorem mkTensor_eq (s : GState) (d : NArray) (tt : TensorType) :
    mkTensor s d tt
      = (⟨(s.nextId, initTensor d tt) :: s.nodes, s.registry ++ [s.nextId], s.nextId + 1⟩,
          s.nextId) := rfl

theorem mkTensor_registry (s : GState) (d : NArray) (tt : TensorType) :
    (mkTensor s d tt).1.registry = s.registry ++ [s.nextId] := rfl

theorem mkTensor_nextId (s : GState) (d : NArray) (tt : TensorType) :
    (mkTensor s d tt).1.nextId = s.nextId + 1 := rfl

theorem lookup_mk_self (s : GState) (d : NArray) (tt : TensorType) :
    lookupNode (mkTensor s d tt).1 s.nextId = some (initTensor d tt) := by
  unfold lookupNode
  rw [mkTensor_eq]
  rw [List.find?_cons_of_pos _ (by simp)]
  rfl

theorem lookup_mk_ne (s : GState) (d : NArray) (tt : TensorType) (j : Nat)
    (h : j ≠ s.nextId) : lookupNode (mkTensor s d tt).1 j = lookupNode s j := by
  unfold lookupNode
  rw [mkTensor_eq]
  rw [List.find?_cons_of_neg _ (by simp [Ne.symm h])]

theorem fold_children_lookup (ps : List Nat) (nid : Nat) (st : GState) (j : Nat) :
    lookupNode (ps.foldl (fun a p => updateNode a p
        (fun t => { t with children := t.children ++ [nid] })) st) j
      = (lookupNode st j).map
          (fun t => { t with children := t.children ++ List.replicate (ps.count j) nid }) := by
  induction ps generalizing st with
  | nil =>
    cases h : lookupNode st j <;> simp [h]
  | cons p rest ih =>
    rw [List.foldl_cons, ih, lookup_update]
    by_cases hj : j = p
    · subst hj
      rw [if_pos rfl]
      cases h : lookupNode st j with
      | none => rfl
      | some t =>
        simp only [Option.map_some']
        have hc : (j :: rest).count j = rest.count j + 1 := by
          simp [List.count_cons]
        rw [hc]
        have : t.children ++ [nid] ++ List.replicate (rest.count j) nid
            = t.children ++ List.replicate (rest.count j + 1) nid := by
          rw [List.append_assoc]
          congr 1
        simp [this]
    · rw [if_neg hj]
      have hpj : ¬ (p = j) := fun h => hj h.symm
      have hc : (p :: rest).count j = rest.count j := by
        simp [List.count_cons, hpj]
      rw [hc]

theorem fold_children_registry (ps : List Nat) (nid : Nat) (st : GState) :
    (ps.foldl (fun a p => updateNode a p
        (fun t => { t with children := t.children ++ [nid] })) st).registry
      = st.registry := by
  induction ps generalizing st with
  | nil => rfl
  | cons p rest ih => rw [List.foldl_cons, ih, registry_update]

theorem fold_children_nextId (ps : List Nat) (nid : Nat) (st : GState) :
    (ps.foldl (fun a p => updateNode a p
        (fun t => { t with children := t.children ++ [nid] })) st).nextId
      = st.nextId := by
  induction ps generalizing st with
  | nil => rfl
  | cons p rest ih => rw [List.foldl_cons, ih, nextId_update]

theorem create_node_newId (s : GState) (d : NArray) (g : Option GradFnTag)
    (ps : List Nat) (e : List (String × ExtraVal)) :
    (create_node s d g ps e).2 = s.nextId := rfl

theorem create_node_eq (s : GState) (d : NArray) (g : Option GradFnTag)
    (ps : List Nat) (e : List (String × ExtraVal)) :
    create_node s d g ps e
      = (ps.foldl (fun a p => updateNode a p
            (fun t => { t with children := t.children ++ [s.nextId] }))
          (updateNode (mkTensor s d TensorType.INTERMEDIATE).1 s.nextId (fun t =>
            { t with grad_fn := g, parents := ps
                     requires_grad :=
                       ps.any (fun p => rgOf (mkTensor s d TensorType.INTERMEDIATE).1 p)
                     extra := e })),
          s.nextId) := rfl

theorem rg_any_congr (ps : List Nat) (s s' : GState)
    (h : ∀ p ∈ ps, rgOf s' p = rgOf s p) :
    ps.any (fun p => rgOf s' p) = ps.any (fun p => rgOf s p) := by
  induction ps with
  | nil => rfl
  | cons p rest ih =>
    simp only [List.any_cons]
    rw [h p (by simp), ih (fun q hq => h q (by simp [hq]))]

/-- Contents of the node `create_node` builds (when the fresh id does not
occur among the parents, which `Invb` guarantees for every reachable call). -/
theorem create_node_lookup_new (s : GState) (d : NArray) (g : Option GradFnTag)
    (ps : List Nat) (e : List (String × ExtraVal)) (hps : s.nextId ∉ ps) :
    lookupNode (create_node s d g ps e).1 s.nextId
      = some { data := d, grad_fn := g, grad := none
               tensor_type := TensorType.INTERMEDIATE
               requires_grad := ps.any (fun p => rgOf s p), stale := false
               parents := ps, children := [], extra := e, version := 0 } := by
  rw [create_node_eq]
  simp only []
  rw [fold_children_lookup, lookup_update_self, lookup_mk_self]
  have hcount : ps.count s.nextId = 0 := List.count_eq_zero.mpr hps
  have hrg : ps.any (fun p => rgOf (mkTensor s d TensorType.INTERMEDIATE).1 p)
      = ps.any (fun p => rgOf s p) := by
    apply rg_any_congr
    intro p hp
    unfold rgOf
    rw [lookup_mk_ne s d _ p (fun hpe => hps (hpe ▸ hp))]
  simp [hcount, initTensor, hrg]

/-- Effect of `create_node` on a pre-existing node: only its `children` list
grows, by one occurrence of the fresh id per occurrence among the parents. -/
theorem create_node_lookup_old (s : GState) (d : NArray) (g : Option GradFnTag)
    (ps : List Nat) (e : List (String × ExtraVal)) (j : Nat) (hj : j ≠ s.nextId) :
    lookupNode (create_node s d g ps e).1 j
      = (lookupNode s j).map
          (fun t => { t with children := t.children ++ List.replicate (ps.count j) s.nextId }) := by
  rw [create_node_eq]
  simp only []
  rw [fold_children_lookup, lookup_update_ne _ _ _ _ hj, lookup_mk_ne _ _ _ _ hj]

theorem create_node_registry (s : GState) (d : NArray) (g : Option GradFnTag)
    (ps : List Nat) (e : List (String × ExtraVal)) :
    (create_node s d g ps e).1.registry = s.registry ++ [s.nextId] := by
  rw [create_node_eq]
  simp only []
  rw [fold_children_registry, registry_update, mkTensor_registry]

theorem create_node_nextId (s : GState) (d : NArray) (g : Option GradFnTag)
    (ps : List Nat) (e : List (String × ExtraVal)) :
    (create_node s d g ps e).1.nextId = s.nextId + 1 := by
  rw [create_node_eq]
  simp only []
  rw [fold_children_nextId, nextId_update, mkTensor_nextId]

end ClumsyGrad

/-! ## What each mutating routine leaves untouched -/

namespace ClumsyGrad

theorem rgOf_congr {s s' : GState} {j : Nat}
    (h : (lookupNode s' j).map (·.requires_grad) = (lookupNode s j).map (·.requires_grad)) :
    rgOf s' j = rgOf s j := by
  unfold rgOf
  rw [h]

theorem gradOf_congr {s s' : GState} {j : Nat}
    (h : (lookupNode s' j).map (·.grad) = (lookupNode s j).map (·.grad)) :
    gradOf s' j = gradOf s j := by
  unfold gradOf
  rw [h]

theorem rgOf_update (s : GState) (i : Nat) (f : Tensor → Tensor) (j : Nat)
    (hf : ∀ t, (f t).requires_grad = t.requires_grad) :
    rgOf (updateNode s i f) j = rgOf s j := by
  unfold rgOf
  rw [lookup_update]
  split
  · cases lookupNode s j <;> simp [hf]
  · rfl

theorem rgOf_create_node (s : GState) (d : NArray) (g : Option GradFnTag)
    (ps : List Nat) (e : List (String × ExtraVal)) (j : Nat) (hj : j ≠ s.nextId) :
    rgOf (create_node s d g ps e).1 j = rgOf s j := by
  unfold rgOf
  rw [create_node_lookup_old s d g ps e j hj]
  cases lookupNode s j <;> rfl

/-- The reclaimer changes only `parents`, `children` and the registry. -/
theorem clearStep_eraseLinks (s : GState) (i : Nat) (j : Nat) :
    (lookupNode (clearStep s i) j).map eraseLinks = (lookupNode s j).map eraseLinks := by
  unfold clearStep
  split
  · rfl
  · split
    · rw [lookup_setRegistry]
      refine Eq.trans (proj_foldl eraseLinks _ _ ?_ _ j) ?_
      · intro a x k
        apply proj_update
        intro u
        rfl
      · refine proj_foldl eraseLinks _ _ ?_ s j
        intro a x k
        apply proj_update
        intro u
        rfl
    · rfl

theorem clear_eraseLinks (s : GState) (j : Nat) :
    (lookupNode (clear_stale_tensors s) j).map eraseLinks
      = (lookupNode s j).map eraseLinks := by
  unfold clear_stale_tensors
  exact proj_foldl eraseLinks s.registry clearStep (fun a x k => clearStep_eraseLinks a x k) s j

theorem rgOf_clear (s : GState) (j : Nat) :
    rgOf (clear_stale_tensors s) j = rgOf s j :=
  rgOf_congr (proj_trans (P := eraseLinks) (Q := fun t => t.requires_grad)
    (fun t => rfl) (clear_eraseLinks s j))

theorem gradOf_clear (s : GState) (j : Nat) :
    gradOf (clear_stale_tensors s) j = gradOf s j :=
  gradOf_congr (proj_trans (P := eraseLinks) (Q := fun t => t.grad)
    (fun t => rfl) (clear_eraseLinks s j))

/-- Gradient accumulation changes only `grad` fields. -/
theorem accumulate_eraseGrad (pairs : List (Nat × NArray)) (s : GState) (j : Nat) :
    (lookupNode (accumulate s pairs) j).map eraseGrad = (lookupNode s j).map eraseGrad := by
  unfold accumulate
  apply proj_foldl
  intro a pg k
  unfold accStep
  split
  · rfl
  · split
    · split
      · apply proj_update
        intro u
        rfl
      · apply proj_update
        intro u
        rfl
    · rfl

theorem processNode_eraseGrad (s : GState) (selfId : Nat) (kg : Bool) (nid : Nat) (j : Nat) :
    (lookupNode (processNode s selfId kg nid) j).map eraseGrad
      = (lookupNode s j).map eraseGrad := by
  simp only [processNode]
  split
  · rfl
  · split
    · split
      · exact Eq.trans
          (proj_update eraseGrad (fun u => { u with grad := none }) (fun u => rfl) _ _ _)
          (accumulate_eraseGrad _ _ _)
      · exact accumulate_eraseGrad _ _ _
    · rfl

theorem backwardLoop_eraseGrad (l : List Nat) (selfId : Nat) (kg : Bool) (st : GState) (j : Nat) :
    (lookupNode (l.foldl (fun a nid => processNode a selfId kg nid) st) j).map eraseGrad
      = (lookupNode st j).map eraseGrad :=
  proj_foldl eraseGrad l _ (fun a x k => processNode_eraseGrad a selfId kg x k) st j

/-- `backwardRun` never changes a `requires_grad` flag. -/
theorem backwardRun_rgOf (s0 : GState) (out : Nat) (sd : NArray) (kg : Bool) (j : Nat) :
    rgOf (backwardRun s0 out sd kg) j = rgOf s0 j := by
  simp only [backwardRun]
  refine Eq.trans (rgOf_congr (proj_trans (P := eraseGrad) (Q := fun u => u.requires_grad)
    (fun u => rfl) (backwardLoop_eraseGrad _ out kg _ j))) ?_
  apply rgOf_update
  intro u
  rfl

/-- `backward` never changes a `requires_grad` flag. -/
theorem backward_rgOf (s : GState) (out : Nat) (g : Option NArray) (kg : Bool) (j : Nat) :
    rgOf (backward s out g kg).1 j = rgOf s j := by
  have hclear := rgOf_clear s j
  cases g with
  | none =>
    simp only [backward]
    split
    · exact hclear
    · split
      · exact hclear
      · split
        · exact hclear
        · exact (backwardRun_rgOf _ _ _ _ _).trans hclear
  | some seed =>
    simp only [backward]
    split
    · exact hclear
    · split
      · exact hclear
      · exact (backwardRun_rgOf _ _ _ _ _).trans hclear

end ClumsyGrad

/-! ## Claim C6: requires_grad is fixed at construction -/

namespace ClumsyGrad

theorem rgOf_T (s : GState) (x : Nat) (j : Nat) (hj : j ≠ s.nextId) :
    rgOf (T s x).1 j = rgOf s j := by
  unfold T
  split
  · rfl
  · split
    · apply rgOf_update
      intro u
      rfl
    · exact rgOf_create_node _ _ _ _ _ _ hj

theorem rgOf_add (s : GState) (a : Nat) (o : PyVal) (j : Nat) (hj : j ≠ s.nextId) :
    rgOf (add s a o).1 j = rgOf s j := by
  cases o with
  | tensor b =>
    simp only [add]
    split
    · rfl
    · split
      · rfl
      · split
        · rfl
        · exact rgOf_create_node _ _ _ _ _ _ hj
  | scalar c =>
    simp only [add]
    split
    · rfl
    · exact rgOf_create_node _ _ _ _ _ _ hj

theorem rgOf_sub (s : GState) (a : Nat) (o : PyVal) (j : Nat) (hj : j ≠ s.nextId) :
    rgOf (sub s a o).1 j = rgOf s j := by
  cases o with
  | tensor b =>
    simp only [sub]
    split
    · rfl
    · split
      · rfl
      · split
        · rfl
        · exact rgOf_create_node _ _ _ _ _ _ hj
  | scalar c =>
    simp only [sub]
    split
    · rfl
    · exact rgOf_create_node _ _ _ _ _ _ hj

theorem rgOf_mul (s : GState) (a : Nat) (o : PyVal) (j : Nat) (hj : j ≠ s.nextId) :
    rgOf (mul s a o).1 j = rgOf s j := by
  cases o with
  | tensor b =>
    simp only [mul]
    split
    · rfl
    · split
      · rfl
      · split
        · rfl
        · exact rgOf_create_node _ _ _ _ _ _ hj
  | scalar c =>
    simp only [mul]
    split
    · rfl
    · exact rgOf_create_node _ _ _ _ _ _ hj

theorem rgOf_matmul (s : GState) (a : Nat) (o : PyVal) (j : Nat) (hj : j ≠ s.nextId) :
    rgOf (matmul s a o).1 j = rgOf s j := by
  cases o with
  | tensor b =>
    simp only [matmul]
    split
    · rfl
    · split
      · rfl
      · split
        · rfl
        · split
          · rfl
          · exact rgOf_create_node _ _ _ _ _ _ hj
  | scalar c =>
    simp only [matmul]
    split
    · rfl
    · rfl

theorem rgOf_reshape (s : GState) (a : Nat) (ns : List Nat) (j : Nat) (hj : j ≠ s.nextId) :
    rgOf (reshape s a ns).1 j = rgOf s j := by
  simp only [reshape]
  split
  · rfl
  · split
    · rfl
    · exact rgOf_create_node _ _ _ _ _ _ hj

/-- C6: `requires_grad` is fixed at construction and never recomputed
afterwards: a directly constructed node has `requires_grad` true iff its
type is `PARAMETER`; a node produced by the Graph Builder `create_node` has
`requires_grad` true iff at least one of its parents requires gradients; and
no later call (graph building, the reclaimer, the backward pass, any
operation) changes the flag of an existing node. -/
theorem C6_requires_grad_fixed :
    (∀ s d tt, ∃ t, lookupNode (mkTensor s d tt).1 (mkTensor s d tt).2 = some t ∧
        t.tensor_type = tt ∧ (t.requires_grad = true ↔ tt = TensorType.PARAMETER)) ∧
    (∀ s d g ps e, s.nextId ∉ ps →
      ∃ t, lookupNode (create_node s d g ps e).1 (create_node s d g ps e).2 = some t ∧
        t.tensor_type = TensorType.INTERMEDIATE ∧
        (t.requires_grad = true ↔ ∃ p ∈ ps, rgOf s p = true)) ∧
    (∀ s d g ps e j, j ≠ s.nextId → rgOf (create_node s d g ps e).1 j = rgOf s j) ∧
    (∀ s j, rgOf (clear_stale_tensors s) j = rgOf s j) ∧
    (∀ s x j, j ≠ s.nextId → rgOf (T s x).1 j = rgOf s j) ∧
    (∀ s out g kg j, rgOf (backward s out g kg).1 j = rgOf s j) ∧
    (∀ s a o j, j ≠ s.nextId → rgOf (add s a o).1 j = rgOf s j) ∧
    (∀ s a o j, j ≠ s.nextId → rgOf (sub s a o).1 j = rgOf s j) ∧
    (∀ s a o j, j ≠ s.nextId → rgOf (mul s a o).1 j = rgOf s j) ∧
    (∀ s a o j, j ≠ s.nextId → rgOf (matmul s a o).1 j = rgOf s j) ∧
    (∀ s a ns j, j ≠ s.nextId → rgOf (reshape s a ns).1 j = rgOf s j) := by
  refine ⟨?_, ?_, ?_, ?_, ?_, ?_, ?_, ?_, ?_, ?_, ?_⟩
  · intro s d tt
    refine ⟨initTensor d tt, lookup_mk_self s d tt, rfl, ?_⟩
    simp [initTensor]
  · intro s d g ps e hps
    refine ⟨_, create_node_lookup_new s d g ps e hps, rfl, ?_⟩
    simp [List.any_eq_true]
  · intro s d g ps e j hj
    exact rgOf_create_node s d g ps e j hj
  · intro s j
    exact rgOf_clear s j
  · intro s x j hj
    exact rgOf_T s x j hj
  · intro s out g kg j
    exact backward_rgOf s out g kg j
  · intro s a o j hj
    exact rgOf_add s a o j hj
  · intro s a o j hj
    exact rgOf_sub s a o j hj
  · intro s a o j hj
    exact rgOf_mul s a o j hj
  · intro s a o j hj
    exact rgOf_matmul s a o j hj
  · intro s a ns j hj
    exact rgOf_reshape s a ns j hj

/-- Witness for C6 at a concrete input: a `PARAMETER` leaf requires
gradients, and a product node built on it by `create_node` does too. -/
theorem C6_requires_grad_fixed_witness :
    ((0 : Nat) ≠ (mkTensor emptyState ⟨[1], [1]⟩ TensorType.PARAMETER).1.nextId) ∧
    rgOf (add (mkTensor emptyState ⟨[1], [1]⟩ TensorType.PARAMETER).1 0 (PyVal.scalar 2)).1 0
      = rgOf (mkTensor emptyState ⟨[1], [1]⟩ TensorType.PARAMETER).1 0 :=
  ⟨by decide,
    C6_requires_grad_fixed.2.2.2.2.2.2.1
      (mkTensor emptyState ⟨[1], [1]⟩ TensorType.PARAMETER).1 0 (PyVal.scalar 2) 0
      (by decide)⟩

/-! ## Claim C10: reflected scalar subtraction -/

/-- C10: for a tensor `a` and non-tensor scalar `c`, the reflected
subtraction `c - a` dispatches to `__rsub__`, which delegates to
`a.__sub__(c)`: the resulting node's data is `a.data - c` element-wise — the
same buffer `a - c` produces — not `c - a.data`. -/
theorem C10_rsub_swaps_operands (s : GState) (a : Nat) (c : Int) (ta : Tensor)
    (h : lookupNode s a = some ta) (ha : a ≠ s.nextId) :
    rsub s a (PyVal.scalar c) = sub s a (PyVal.scalar c) ∧
    ∃ t, lookupNode (rsub s a (PyVal.scalar c)).1 s.nextId = some t ∧
      (rsub s a (PyVal.scalar c)).2 = Except.ok s.nextId ∧
      t.data = NArray.subS ta.data c ∧
      t.data.flat = ta.data.flat.map (fun v => v - c) := by
  refine ⟨rfl, ?_⟩
  unfold rsub sub
  simp only [h]
  have hps : s.nextId ∉ [a] := by
    intro hm
    rcases List.mem_singleton.mp hm with rfl
    exact ha rfl
  refine ⟨_, create_node_lookup_new s (NArray.subS ta.data c)
    (some GradFnTag.sub_scalar_backward) [a] [("scalar_value", ExtraVal.num c)] hps, ?_, rfl, rfl⟩
  simp [create_node_newId]

/-- Witness for C10: `5 - a` for `a = [2]` yields data `[-3] = a.data - 5`. -/
theorem C10_rsub_swaps_operands_witness :
    (lookupNode (mkTensor emptyState ⟨[1], [2]⟩ TensorType.PARAMETER).1 0
        = some (initTensor ⟨[1], [2]⟩ TensorType.PARAMETER)) ∧
    ((0 : Nat) ≠ (mkTensor emptyState ⟨[1], [2]⟩ TensorType.PARAMETER).1.nextId) ∧
    (rsub (mkTensor emptyState ⟨[1], [2]⟩ TensorType.PARAMETER).1 0 (PyVal.scalar 5)
        = sub (mkTensor emptyState ⟨[1], [2]⟩ TensorType.PARAMETER).1 0 (PyVal.scalar 5) ∧
      ∃ t, lookupNode
            (rsub (mkTensor emptyState ⟨[1], [2]⟩ TensorType.PARAMETER).1 0 (PyVal.scalar 5)).1
            (mkTensor emptyState ⟨[1], [2]⟩ TensorType.PARAMETER).1.nextId = some t ∧
        (rsub (mkTensor emptyState ⟨[1], [2]⟩ TensorType.PARAMETER).1 0 (PyVal.scalar 5)).2
          = Except.ok (mkTensor emptyState ⟨[1], [2]⟩ TensorType.PARAMETER).1.nextId ∧
        t.data = NArray.subS (initTensor ⟨[1], [2]⟩ TensorType.PARAMETER).data 5 ∧
        t.data.flat = (initTensor ⟨[1], [2]⟩ TensorType.PARAMETER).data.flat.map
          (fun v => v - 5)) :=
  ⟨by decide, by decide,
    C10_rsub_swaps_operands (mkTensor emptyState ⟨[1], [2]⟩ TensorType.PARAMETER).1 0 5
      (initTensor ⟨[1], [2]⟩ TensorType.PARAMETER) (by decide) (by decide)⟩

end ClumsyGrad

/-! ## Claim C7: precondition violations raise before any node is built -/

namespace ClumsyGrad

/-- C7: tensor-tensor add/sub/mul with unequal shapes, matrix product with a
non-tensor right operand, an operand of fewer than two dimensions or
misaligned inner dimensions, and reshape changing the element count all
return the matching error with the state returned exactly as given (no node
created, no registry entry, no children extended); when the precondition
holds, the call succeeds with a fresh node. -/
theorem C7_errors_leave_graph_unchanged :
    (∀ s a b ta tb, lookupNode s a = some ta → lookupNode s b = some tb →
      (ta.data.shape ≠ tb.data.shape →
        add s a (PyVal.tensor b) = (s, Except.error "Shape mismatch for addition")) ∧
      (ta.data.shape = tb.data.shape →
        (add s a (PyVal.tensor b)).2 = Except.ok s.nextId)) ∧
    (∀ s a b ta tb, lookupNode s a = some ta → lookupNode s b = some tb →
      (ta.data.shape ≠ tb.data.shape →
        sub s a (PyVal.tensor b) = (s, Except.error "Shape mismatch for subtraction")) ∧
      (ta.data.shape = tb.data.shape →
        (sub s a (PyVal.tensor b)).2 = Except.ok s.nextId)) ∧
    (∀ s a b ta tb, lookupNode s a = some ta → lookupNode s b = some tb →
      (ta.data.shape ≠ tb.data.shape →
        mul s a (PyVal.tensor b) = (s, Except.error "Shape mismatch for multiplication")) ∧
      (ta.data.shape = tb.data.shape →
        (mul s a (PyVal.tensor b)).2 = Except.ok s.nextId)) ∧
    (∀ s a c ta, lookupNode s a = some ta →
      matmul s a (PyVal.scalar c)
        = (s, Except.error "Right operand must be a Tensor for matrix multiplication.")) ∧
    (∀ s a b ta tb, lookupNode s a = some ta → lookupNode s b = some tb →
      ((ta.data.shape.length < 2 ∨ tb.data.shape.length < 2) →
        matmul s a (PyVal.tensor b)
          = (s, Except.error "Matrix multiplication requires at least 2D tensors.")) ∧
      (¬ (ta.data.shape.length < 2 ∨ tb.data.shape.length < 2) →
        ta.data.shape.getLastD 0 ≠ (tb.data.shape.drop (tb.data.shape.length - 2)).headD 0 →
        matmul s a (PyVal.tensor b) = (s, Except.error "Matrix shapes not aligned")) ∧
      (¬ (ta.data.shape.length < 2 ∨ tb.data.shape.length < 2) →
        ta.data.shape.getLastD 0 = (tb.data.shape.drop (tb.data.shape.length - 2)).headD 0 →
        (matmul s a (PyVal.tensor b)).2 = Except.ok s.nextId)) ∧
    (∀ s a ns ta, lookupNode s a = some ta →
      (ns.foldl (· * ·) 1 ≠ ta.data.shape.foldl (· * ·) 1 →
        reshape s a ns
          = (s, Except.error "New shape must have the same number of elements as the original shape.")) ∧
      (ns.foldl (· * ·) 1 = ta.data.shape.foldl (· * ·) 1 →
        (reshape s a ns).2 = Except.ok s.nextId)) := by
  refine ⟨?_, ?_, ?_, ?_, ?_, ?_⟩
  · intro s a b ta tb ha hb
    constructor
    · intro hne
      simp only [add, ha, hb, if_pos hne]
    · intro heq
      simp only [add, ha, hb]
      rw [if_neg (fun hn => hn heq)]
      simp [create_node_newId]
  · intro s a b ta tb ha hb
    constructor
    · intro hne
      simp only [sub, ha, hb, if_pos hne]
    · intro heq
      simp only [sub, ha, hb]
      rw [if_neg (fun hn => hn heq)]
      simp [create_node_newId]
  · intro s a b ta tb ha hb
    constructor
    · intro hne
      simp only [mul, ha, hb, if_pos hne]
    · intro heq
      simp only [mul, ha, hb]
      rw [if_neg (fun hn => hn heq)]
      simp [create_node_newId]
  · intro s a c ta ha
    simp only [matmul, ha]
  · intro s a b ta tb ha hb
    refine ⟨?_, ?_, ?_⟩
    · intro hdim
      simp only [matmul, ha, hb, if_pos hdim]
    · intro hdim halign
      simp only [matmul, ha, hb]
      rw [if_neg hdim, if_pos halign]
    · intro hdim halign
      simp only [matmul, ha, hb]
      rw [if_neg hdim, if_neg (fun hn => hn halign)]
      simp [create_node_newId]
  · intro s a ns ta ha
    constructor
    · intro hne
      simp only [reshape, ha, if_pos hne]
    · intro heq
      simp only [reshape, ha]
      rw [if_neg (fun hn => hn heq)]
      simp [create_node_newId]

/-- Witness for C7: adding a `(1)`-shaped tensor to a `(2)`-shaped tensor
fails with the shape-mismatch error and leaves the state untouched. -/
theorem C7_errors_leave_graph_unchanged_witness :
    (lookupNode (mkTensor (mkTensor emptyState ⟨[1], [1]⟩ TensorType.PARAMETER).1
        ⟨[2], [1, 2]⟩ TensorType.PARAMETER).1 0 = some (initTensor ⟨[1], [1]⟩ TensorType.PARAMETER)) ∧
    (lookupNode (mkTensor (mkTensor emptyState ⟨[1], [1]⟩ TensorType.PARAMETER).1
        ⟨[2], [1, 2]⟩ TensorType.PARAMETER).1 1 = some (initTensor ⟨[2], [1, 2]⟩ TensorType.PARAMETER)) ∧
    (([1] : List Nat) ≠ [2]) ∧
    (add (mkTensor (mkTensor emptyState ⟨[1], [1]⟩ TensorType.PARAMETER).1
          ⟨[2], [1, 2]⟩ TensorType.PARAMETER).1 0 (PyVal.tensor 1)
      = ((mkTensor (mkTensor emptyState ⟨[1], [1]⟩ TensorType.PARAMETER).1
          ⟨[2], [1, 2]⟩ TensorType.PARAMETER).1, Except.error "Shape mismatch for addition")) :=
  ⟨by decide, by decide, by decide,
    ((C7_errors_leave_graph_unchanged.1
        (mkTensor (mkTensor emptyState ⟨[1], [1]⟩ TensorType.PARAMETER).1
          ⟨[2], [1, 2]⟩ TensorType.PARAMETER).1 0 1
        (initTensor ⟨[1], [1]⟩ TensorType.PARAMETER)
        (initTensor ⟨[2], [1, 2]⟩ TensorType.PARAMETER)
        (by decide) (by decide)).1 (by decide))⟩

end ClumsyGrad

/-! ## Claim C2: gradient dispatch and accumulation -/

namespace ClumsyGrad

/-- Number of parents each gradient function serves (one gradient buffer per
parent, by the spec's gradient-function contract). -/
def gradFnArity : GradFnTag → Nat
  | GradFnTag.add_backward => 2
  | GradFnTag.add_scalar_backward => 1
  | GradFnTag.sub_backward => 2
  | GradFnTag.sub_scalar_backward => 1
  | GradFnTag.mul_backward => 2
  | GradFnTag.mul_scalar_backward => 1
  | GradFnTag.matmul_backward => 2
  | GradFnTag.reshape_backward => 1
  | GradFnTag.transpose_backward => 1

/-- Closed form of the accumulation rule for a fixed parent: each arriving
contribution either initialises an absent `grad` or is added element-wise. -/
def foldContrib (old : Option NArray) (cs : List NArray) : Option NArray :=
  cs.foldl
    (fun acc g =>
      match acc with
      | none => some g
      | some o => some (NArray.addN o g))
    old

theorem gradOf_update_ne (s : GState) (i : Nat) (f : Tensor → Tensor) (p : Nat)
    (h : p ≠ i) : gradOf (updateNode s i f) p = gradOf s p := by
  unfold gradOf
  rw [lookup_update_ne _ _ _ _ h]

theorem gradOf_update_self (s : GState) (i : Nat) (g : Option NArray) (t : Tensor)
    (h : lookupNode s i = some t) :
    gradOf (updateNode s i (fun u => { u with grad := g })) i = g := by
  unfold gradOf
  rw [lookup_update_self, h]
  rfl

theorem rgOf_true_lookup (s : GState) (p : Nat) (h : rgOf s p = true) :
    ∃ t, lookupNode s p = some t ∧ t.requires_grad = true := by
  unfold rgOf at h
  cases hl : lookupNode s p with
  | none => rw [hl] at h; simp at h
  | some t => rw [hl] at h; exact ⟨t, rfl, h⟩

theorem rgOf_accStep (s : GState) (pg : Nat × NArray) (p : Nat) :
    rgOf (accStep s pg) p = rgOf s p := by
  refine rgOf_congr (proj_trans (P := eraseGrad) (Q := fun u => u.requires_grad)
    (fun u => rfl) ?_)
  unfold accStep
  split
  · rfl
  · split
    · split
      · apply proj_update
        intro u
        rfl
      · apply proj_update
        intro u
        rfl
    · rfl

theorem gradOf_accStep_ne (s : GState) (pg : Nat × NArray) (p : Nat) (h : pg.1 ≠ p) :
    gradOf (accStep s pg) p = gradOf s p := by
  unfold accStep
  split
  · rfl
  · split
    · split
      · exact gradOf_update_ne _ _ _ _ (fun hc => h hc.symm)
      · exact gradOf_update_ne _ _ _ _ (fun hc => h hc.symm)
    · rfl

theorem gradOf_accStep_norg (s : GState) (pg : Nat × NArray)
    (h : rgOf s pg.1 = false) : accStep s pg = s := by
  unfold accStep
  cases hl : lookupNode s pg.1 with
  | none => rfl
  | some pt =>
    have : pt.requires_grad = false := by
      unfold rgOf at h
      rw [hl] at h
      exact h
    simp [this]

theorem gradOf_accStep_self (s : GState) (pg : Nat × NArray) (pt : Tensor)
    (hl : lookupNode s pg.1 = some pt) (hr : pt.requires_grad = true) :
    gradOf (accStep s pg) pg.1
      = match gradOf s pg.1 with
        | none => some pg.2
        | some og => some (NArray.addN og pg.2) := by
  have hgrad : gradOf s pg.1 = pt.grad := by
    unfold gradOf
    rw [hl]
    rfl
  unfold accStep
  rw [hl]
  simp only [hr, if_pos]
  cases hg : pt.grad with
  | none =>
    rw [hgrad, hg]
    simp only []
    exact gradOf_update_self _ _ _ _ hl
  | some og =>
    rw [hgrad, hg]
    simp only []
    exact gradOf_update_self _ _ _ _ hl

/-- Exact effect of the accumulation loop on the gradient of any node `p`:
if `p` requires gradients, its final `grad` folds the contributions arriving
at each occurrence of `p` among the pairs (initialise when absent, add
element-wise otherwise); otherwise its `grad` is untouched. -/
theorem accumulate_spec (pairs : List (Nat × NArray)) (s : GState) (p : Nat) :
    gradOf (accumulate s pairs) p
      = if rgOf s p = true
        then foldContrib (gradOf s p) ((pairs.filter (fun pg => pg.1 = p)).map (·.2))
        else gradOf s p := by
  induction pairs generalizing s with
  | nil => split <;> rfl
  | cons pg rest ih =>
    have hstep : accumulate s (pg :: rest) = accumulate (accStep s pg) rest := rfl
    rw [hstep, ih, rgOf_accStep]
    by_cases hr : rgOf s p = true
    · rw [if_pos hr, if_pos hr]
      by_cases hpq : pg.1 = p
      · subst hpq
        obtain ⟨pt, hl, hrg⟩ := rgOf_true_lookup s pg.1 hr
        rw [List.filter_cons_of_pos (by simp)]
        rw [gradOf_accStep_self s pg pt hl hrg]
        cases hg : gradOf s pg.1 with
        | none => rfl
        | some og => rfl
      · rw [List.filter_cons_of_neg (by simp [hpq])]
        rw [gradOf_accStep_ne s pg p hpq]
    · rw [if_neg hr, if_neg hr]
      by_cases hpq : pg.1 = p
      · subst hpq
        rw [gradOf_accStep_norg s pg (by revert hr; cases rgOf s pg.1 <;> simp)]
      · exact gradOf_accStep_ne s pg p hpq

/-- Modelled gradient functions return one buffer per parent whenever the
node's parent count matches its gradient function's arity (as every node the
Graph Builder creates does). -/
theorem applyGradFn_length (s : GState) (t : Tensor) (f : GradFnTag) (g : NArray)
    (h : t.parents.length = gradFnArity f) :
    (applyGradFn s t f g).length = t.parents.length := by
  cases f with
  | add_backward => simp [applyGradFn, gradFnArity] at h ⊢; omega
  | add_scalar_backward => simp [applyGradFn, gradFnArity] at h ⊢; omega
  | sub_backward => simp [applyGradFn, gradFnArity] at h ⊢; omega
  | sub_scalar_backward => simp [applyGradFn, gradFnArity] at h ⊢; omega
  | mul_backward =>
    obtain ⟨x, y, hxy⟩ := List.length_eq_two.mp (by simpa [gradFnArity] using h)
    simp [applyGradFn, hxy]
  | mul_scalar_backward => simp [applyGradFn, gradFnArity] at h ⊢; omega
  | matmul_backward =>
    obtain ⟨x, y, hxy⟩ := List.length_eq_two.mp (by simpa [gradFnArity] using h)
    simp [applyGradFn, hxy]
  | reshape_backward => simp [applyGradFn, gradFnArity] at h ⊢; omega
  | transpose_backward => simp [applyGradFn, gradFnArity] at h ⊢; omega

/-- C2: processing a node with a `grad_fn` and a present `grad` invokes the
gradient function on `(node, node.grad)`, obtaining one gradient buffer per
parent (in parent order); every other node's gradient is then exactly the
fold of the contributions at its occurrences among
`zip(node.parents, gradients)` — set when absent, element-wise added
otherwise — and nodes with `requires_grad` false are untouched. -/
theorem C2_backward_accumulation (s : GState) (selfId nid : Nat) (kg : Bool)
    (t : Tensor) (f : GradFnTag) (g : NArray)
    (h : lookupNode s nid = some t) (hf : t.grad_fn = some f) (hg : t.grad = some g)
    (harity : t.parents.length = gradFnArity f) :
    (applyGradFn s t f g).length = t.parents.length ∧
    (∀ p, p ≠ nid →
      gradOf (processNode s selfId kg nid) p
        = if rgOf s p = true
          then foldContrib (gradOf s p)
            (((t.parents.zip (applyGradFn s t f g)).filter (fun pg => pg.1 = p)).map (·.2))
          else gradOf s p) := by
  refine ⟨applyGradFn_length s t f g harity, ?_⟩
  intro p hp
  simp only [processNode, h, hf, hg]
  split
  · rw [gradOf_update_ne _ _ _ _ hp, accumulate_spec]
  · rw [accumulate_spec]

end ClumsyGrad

namespace ClumsyGrad

/-- The concrete state for the C2 witness: `a = Parameter([1.0])` (id 0),
`c = a + a` (id 1, parents `[0, 0]`), with `c.grad` set to `[1.0]`. -/
def c2state : GState :=
  updateNode (add (mkTensor emptyState ⟨[1], [1]⟩ TensorType.PARAMETER).1 0 (PyVal.tensor 0)).1 1
    (fun u => { u with grad := some ⟨[1], [1]⟩ })

/-- The node `c = a + a` of `c2state`. -/
def c2tensor : Tensor :=
  { data := ⟨[1], [2]⟩, grad_fn := some GradFnTag.add_backward
    grad := some ⟨[1], [1]⟩, tensor_type := TensorType.INTERMEDIATE
    requires_grad := true, stale := false, parents := [0, 0]
    children := [], extra := [], version := 0 }

/-- Witness for C2: processing `c = a + a` whose grad is `[1.0]` sums the
contribution of both parent slots into `a.grad`. -/
theorem C2_backward_accumulation_witness :
    (lookupNode c2state 1 = some c2tensor ∧
      c2tensor.grad_fn = some GradFnTag.add_backward ∧
      c2tensor.grad = some ⟨[1], [1]⟩ ∧
      c2tensor.parents.length = gradFnArity GradFnTag.add_backward) ∧
    ((applyGradFn c2state c2tensor GradFnTag.add_backward ⟨[1], [1]⟩).length
        = c2tensor.parents.length ∧
      (∀ p, p ≠ 1 →
        gradOf (processNode c2state 0 false 1) p
          = if rgOf c2state p = true
            then foldContrib (gradOf c2state p)
              (((c2tensor.parents.zip
                  (applyGradFn c2state c2tensor GradFnTag.add_backward ⟨[1], [1]⟩)).filter
                  (fun pg => pg.1 = p)).map (·.2))
            else gradOf c2state p)) :=
  ⟨⟨by decide, rfl, rfl, by decide⟩,
    C2_backward_accumulation c2state 0 1 false c2tensor GradFnTag.add_backward ⟨[1], [1]⟩
      (by decide) rfl rfl (by decide)⟩

end ClumsyGrad

/-! ## Claim C5: backward preconditions (corrected) -/

namespace ClumsyGrad

/-- C5 (amended): every `backward` call first runs the reclaimer
unconditionally — a failing call returns exactly the reclaimed state — then
raises the gradient-not-required error exactly when the output does not
require gradients; with the gradient omitted it raises the non-scalar
implicit-gradient error exactly when the output's data does not have exactly
one element (the source tests `size != 1`, so a zero-element output also
raises), and otherwise seeds the pass with a ones buffer of the output's
shape. -/
theorem C5_backward_preconditions (s : GState) (out : Nat) (kg : Bool) (t : Tensor)
    (h : lookupNode (clear_stale_tensors s) out = some t) :
    (¬ t.requires_grad = true →
      backward s out none kg
          = (clear_stale_tensors s, some "Tensor does not require gradients") ∧
      ∀ g, backward s out (some g) kg
          = (clear_stale_tensors s, some "Tensor does not require gradients")) ∧
    (t.requires_grad = true → t.data.size ≠ 1 →
      backward s out none kg
        = (clear_stale_tensors s,
            some "Gradient can only be implicitly created for scalar outputs")) ∧
    (t.requires_grad = true → t.data.size = 1 →
      backward s out none kg = backward s out (some (NArray.onesLike t.data)) kg) ∧
    (t.requires_grad = true → ∀ g, backward s out (some g) kg
      = (backwardRun (clear_stale_tensors s) out g kg, none)) := by
  refine ⟨?_, ?_, ?_, ?_⟩
  · intro hr
    constructor
    · simp only [backward, h, if_pos hr]
    · intro g
      simp only [backward, h, if_pos hr]
  · intro hr hsz
    simp only [backward, h]
    rw [if_neg (by simp [hr]), if_pos hsz]
  · intro hr hsz
    simp only [backward, h]
    rw [if_neg (by simp [hr]), if_neg (fun hn => hn hsz), if_neg (by simp [hr])]
  · intro hr g
    simp only [backward, h]
    rw [if_neg (by simp [hr])]

/-- Counterexample for C5 as stated: a `PARAMETER` tensor whose data has
shape `(0,)` (zero elements, hence not "more than one element") still
raises the non-scalar implicit-gradient error when `backward` is called
without a gradient. -/
theorem C5_counterexample :
    (backward (mkTensor emptyState ⟨[0], []⟩ TensorType.PARAMETER).1 0 none false).2
        = some "Gradient can only be implicitly created for scalar outputs" ∧
    rgOf (mkTensor emptyState ⟨[0], []⟩ TensorType.PARAMETER).1 0 = true ∧
    ¬ (1 < NArray.size ⟨[0], []⟩) := by
  refine ⟨?_, by decide, by decide⟩
  rfl

/-- Witness for C5: on a scalar `PARAMETER` output the omitted-gradient call
equals the call explicitly seeded with ones. -/
theorem C5_backward_preconditions_witness :
    (lookupNode (clear_stale_tensors (mkTensor emptyState ⟨[1], [1]⟩ TensorType.PARAMETER).1) 0
        = some (initTensor ⟨[1], [1]⟩ TensorType.PARAMETER)) ∧
    ((initTensor ⟨[1], [1]⟩ TensorType.PARAMETER).requires_grad = true) ∧
    ((initTensor ⟨[1], [1]⟩ TensorType.PARAMETER).data.size = 1) ∧
    backward (mkTensor emptyState ⟨[1], [1]⟩ TensorType.PARAMETER).1 0 none false
      = backward (mkTensor emptyState ⟨[1], [1]⟩ TensorType.PARAMETER).1 0
          (some (NArray.onesLike (initTensor ⟨[1], [1]⟩ TensorType.PARAMETER).data)) false :=
  ⟨by decide, by decide, by decide,
    (C5_backward_preconditions (mkTensor emptyState ⟨[1], [1]⟩ TensorType.PARAMETER).1 0 false
      (initTensor ⟨[1], [1]⟩ TensorType.PARAMETER) (by decide)).2.2.1 (by decide) (by decide)⟩

end ClumsyGrad

/-! ## The Reclaimer: exact specification of `clear_stale_tensors` -/

namespace ClumsyGrad

/-- Iterated `removeFirst`. -/
def removeIter (x : Nat) : Nat → List Nat → List Nat
  | 0, l => l
  | n + 1, l => removeIter x n (removeFirst l x)

theorem removeFirst_cons_ne (a x : Nat) (l : List Nat) (h : a ≠ x) :
    removeFirst (a :: l) x = a :: removeFirst l x := by
  show (if a = x then l else a :: removeFirst l x) = a :: removeFirst l x
  rw [if_neg h]

theorem removeIter_cons_ne (a x : Nat) (h : a ≠ x) :
    ∀ (k : Nat) (l : List Nat), removeIter x k (a :: l) = a :: removeIter x k l := by
  intro k
  induction k with
  | zero => intro l; rfl
  | succ n ih =>
    intro l
    show removeIter x n (removeFirst (a :: l) x) = a :: removeIter x n (removeFirst l x)
    rw [removeFirst_cons_ne a x l h, ih]

/-- Removing the first occurrence as many times as an element occurs is the
same as filtering it out. -/
theorem removeIter_count_eq_filter (x : Nat) (l : List Nat) :
    removeIter x (l.count x) l = l.filter (fun c => c ≠ x) := by
  induction l with
  | nil => rfl
  | cons a l ih =>
    by_cases hax : a = x
    · subst hax
      have hc : (a :: l).count a = l.count a + 1 := by simp [List.count_cons]
      rw [hc]
      show removeIter a (l.count a) (removeFirst (a :: l) a) = _
      have hrf : removeFirst (a :: l) a = l := by
        unfold removeFirst
        rw [if_pos rfl]
      rw [hrf, ih]
      rw [List.filter_cons_of_neg (by simp)]
    · have hc : (a :: l).count x = l.count x := by
        simp [List.count_cons, hax]
      rw [hc, removeIter_cons_ne a x hax, ih]
      rw [List.filter_cons_of_pos (by simp [hax])]

theorem fold_removeFirst_lookup (ps : List Nat) (x : Nat) (st : GState) (j : Nat) :
    lookupNode (ps.foldl (fun a p => updateNode a p
        (fun pt => { pt with children := removeFirst pt.children x })) st) j
      = (lookupNode st j).map
          (fun t => { t with children := removeIter x (ps.count j) t.children }) := by
  induction ps generalizing st with
  | nil => cases h : lookupNode st j <;> simp [h, removeIter]
  | cons p rest ih =>
    rw [List.foldl_cons, ih, lookup_update]
    by_cases hj : j = p
    · subst hj
      rw [if_pos rfl]
      cases h : lookupNode st j with
      | none => rfl
      | some t =>
        have hc : (j :: rest).count j = rest.count j + 1 := by simp [List.count_cons]
        rw [hc]
        simp only [Option.map_some']
        have : removeIter x (rest.count j + 1) t.children
            = removeIter x (rest.count j) (removeFirst t.children x) := by
          have haux : ∀ (k : Nat) (l : List Nat),
              removeIter x (k + 1) l = removeIter x k (removeFirst l x) := by
            intro k l
            rfl
          exact haux (rest.count j) t.children
        rw [this]
    · rw [if_neg hj]
      have hpj : ¬ (p = j) := fun h => hj h.symm
      have hc : (p :: rest).count j = rest.count j := by simp [List.count_cons, hpj]
      rw [hc]

theorem filter_idem (p : Nat → Bool) (l : List Nat) :
    (l.filter p).filter p = l.filter p := by
  rw [List.filter_filter]
  apply List.filter_congr
  intro x _
  cases p x <;> rfl

theorem fold_filterParents_lookup (cs : List Nat) (x : Nat) (st : GState) (j : Nat) :
    lookupNode (cs.foldl (fun a c => updateNode a c
        (fun ct => { ct with parents := ct.parents.filter (fun p => p ≠ x) })) st) j
      = (lookupNode st j).map
          (fun t => { t with parents :=
            if j ∈ cs then t.parents.filter (fun p => p ≠ x) else t.parents }) := by
  induction cs generalizing st with
  | nil => cases h : lookupNode st j <;> simp [h]
  | cons c rest ih =>
    rw [List.foldl_cons, ih, lookup_update]
    by_cases hj : j = c
    · subst hj
      rw [if_pos rfl]
      cases h : lookupNode st j with
      | none => rfl
      | some t =>
        simp only [Option.map_some', List.mem_cons, true_or, if_pos]
        by_cases hr : j ∈ rest
        · rw [if_pos hr, filter_idem]
        · rw [if_neg hr]
    · rw [if_neg hj]
      cases h : lookupNode st j with
      | none => rfl
      | some t =>
        simp only [Option.map_some']
        by_cases hr : j ∈ rest
        · rw [if_pos hr, if_pos (List.mem_cons.mpr (Or.inr hr))]
        · rw [if_neg hr, if_neg (by simp [hj, hr])]

theorem fold_removeFirst_registry (ps : List Nat) (x : Nat) (st : GState) :
    (ps.foldl (fun a p => updateNode a p
        (fun pt => { pt with children := removeFirst pt.children x })) st).registry
      = st.registry := by
  induction ps generalizing st with
  | nil => rfl
  | cons p rest ih => rw [List.foldl_cons, ih, registry_update]

theorem fold_filterParents_registry (cs : List Nat) (x : Nat) (st : GState) :
    (cs.foldl (fun a c => updateNode a c
        (fun ct => { ct with parents := ct.parents.filter (fun p => p ≠ x) })) st).registry
      = st.registry := by
  induction cs generalizing st with
  | nil => rfl
  | cons c rest ih => rw [List.foldl_cons, ih, registry_update]

theorem fold_removeFirst_nextId (ps : List Nat) (x : Nat) (st : GState) :
    (ps.foldl (fun a p => updateNode a p
        (fun pt => { pt with children := removeFirst pt.children x })) st).nextId
      = st.nextId := by
  induction ps generalizing st with
  | nil => rfl
  | cons p rest ih => rw [List.foldl_cons, ih, nextId_update]

theorem fold_filterParents_nextId (cs : List Nat) (x : Nat) (st : GState) :
    (cs.foldl (fun a c => updateNode a c
        (fun ct => { ct with parents := ct.parents.filter (fun p => p ≠ x) })) st).nextId
      = st.nextId := by
  induction cs generalizing st with
  | nil => rfl
  | cons c rest ih => rw [List.foldl_cons, ih, nextId_update]

end ClumsyGrad

namespace ClumsyGrad

/-- A node is "killed" relative to a processed prefix `P` of the registry
snapshot if it lies in `P` and was flagged stale in the original state. -/
def killedIn (s : GState) (P : List Nat) (i : Nat) : Bool :=
  decide (i ∈ P) && staleOf s i

/-- Structural hypotheses under which the reclaimer's behaviour is
characterised; they hold in every state the library constructs (`Invb`). -/
structure ClearHyps (s : GState) : Prop where
  nodupR : s.registry.Nodup
  present : ∀ i ∈ s.registry, (lookupNode s i).isSome = true
  closedP : ∀ i ∈ s.registry, ∀ p ∈ parentsOf s i, p ∈ s.registry
  closedC : ∀ i ∈ s.registry, ∀ c ∈ childrenOf s i, c ∈ s.registry
  sym : ∀ i ∈ s.registry, ∀ q ∈ s.registry,
    (childrenOf s q).count i = (parentsOf s i).count q

/-- State description after the reclaimer has processed the prefix `P` of
the registry snapshot: killed nodes are deregistered; every surviving
registered node's links are the original ones with killed entries filtered
out; no other field of any node changes. -/
def ClearInv (s : GState) (P : List Nat) (cur : GState) : Prop :=
  (∀ j t0, lookupNode s j = some t0 → ∃ t, lookupNode cur j = some t ∧
      t.data = t0.data ∧ t.grad_fn = t0.grad_fn ∧ t.grad = t0.grad ∧
      t.tensor_type = t0.tensor_type ∧ t.requires_grad = t0.requires_grad ∧
      t.stale = t0.stale ∧ t.extra = t0.extra ∧ t.version = t0.version ∧
      (j ∈ s.registry → killedIn s P j = false →
        t.parents = t0.parents.filter (fun p => !(killedIn s P p)) ∧
        t.children = t0.children.filter (fun c => !(killedIn s P c)))) ∧
  (∀ j, lookupNode s j = none → lookupNode cur j = none) ∧
  cur.registry = s.registry.filter (fun i => !(killedIn s P i)) ∧
  cur.nextId = s.nextId

theorem killedIn_nil (s : GState) (x : Nat) : killedIn s [] x = false := by
  simp [killedIn]

theorem killedIn_snoc (s : GState) (P : List Nat) (i x : Nat) :
    killedIn s (P ++ [i]) x
      = (killedIn s P x || (decide (x = i) && staleOf s i)) := by
  by_cases h1 : x ∈ P <;> by_cases h2 : x = i
  · subst h2
    simp [killedIn, h1]
  · simp [killedIn, List.mem_append, h1, h2]
  · subst h2
    simp [killedIn, List.mem_append, h1]
  · simp [killedIn, List.mem_append, h1, h2]

theorem ClearInv_init (s : GState) : ClearInv s [] s := by
  refine ⟨?_, fun j h => h, ?_, rfl⟩
  · intro j t0 h
    refine ⟨t0, h, rfl, rfl, rfl, rfl, rfl, rfl, rfl, rfl, ?_⟩
    intro _ _
    constructor
    · rw [List.filter_congr (q := fun x => true) (by intro x _; simp [killedIn_nil]),
        List.filter_true]
    · rw [List.filter_congr (q := fun x => true) (by intro x _; simp [killedIn_nil]),
        List.filter_true]
  · rw [List.filter_congr (q := fun x => true) (by intro x _; simp [killedIn_nil]),
      List.filter_true]

theorem ClearInv_congr (s : GState) (P Q' : List Nat) (cur : GState)
    (h : ∀ x, killedIn s Q' x = killedIn s P x)
    (hInv : ClearInv s P cur) : ClearInv s Q' cur := by
  obtain ⟨h1, h2, h3, h4⟩ := hInv
  refine ⟨?_, h2, ?_, h4⟩
  · intro j t0 hj
    obtain ⟨t, hl, e1, e2, e3, e4, e5, e6, e7, e8, hlinks⟩ := h1 j t0 hj
    refine ⟨t, hl, e1, e2, e3, e4, e5, e6, e7, e8, ?_⟩
    intro hr hk
    rw [h] at hk
    obtain ⟨hp, hc⟩ := hlinks hr hk
    constructor
    · rw [hp]
      exact (List.filter_congr (by intro x _; rw [h])).symm
    · rw [hc]
      exact (List.filter_congr (by intro x _; rw [h])).symm
  · rw [h3]
    exact (List.filter_congr (by intro x _; rw [h])).symm

end ClumsyGrad

namespace ClumsyGrad

theorem clearStep_inv (s : GState) (H : ClearHyps s) (done rest : List Nat) (i : Nat)
    (hreg : s.registry = done ++ i :: rest) (cur : GState)
    (hInv : ClearInv s done cur) :
    ClearInv s (done ++ [i]) (clearStep cur i) := by
  obtain ⟨hInv1, hInv2, hInv3, hInv4⟩ := hInv
  have hiR : i ∈ s.registry := by
    rw [hreg]
    exact List.mem_append_right _ (by simp)
  have hidone : i ∉ done := by
    intro hmem
    have hnd : (done ++ i :: rest).Nodup := hreg ▸ H.nodupR
    exact (List.nodup_append.mp hnd).2.2 hmem (by simp)
  have hki : killedIn s done i = false := by
    simp [killedIn, hidone]
  have hpres := H.present i hiR
  obtain ⟨t0, ht0⟩ : ∃ t0, lookupNode s i = some t0 := by
    cases hl : lookupNode s i with
    | none => rw [hl] at hpres; simp at hpres
    | some t0 => exact ⟨t0, rfl⟩
  obtain ⟨t, htl, e1, e2, e3, e4, e5, e6, e7, e8, hlinks⟩ := hInv1 i t0 ht0
  obtain ⟨htp, htc⟩ := hlinks hiR hki
  have hstale0 : staleOf s i = t0.stale := by
    unfold staleOf
    rw [ht0]
    rfl
  by_cases hst : staleOf s i = true
  case neg =>
    have hstf : staleOf s i = false := by
      revert hst
      cases staleOf s i <;> simp
    have hkeq : ∀ x, killedIn s (done ++ [i]) x = killedIn s done x := by
      intro x
      rw [killedIn_snoc, hstf]
      cases killedIn s done x <;> simp
    have hstep : clearStep cur i = cur := by
      have htf : t.stale = false := by rw [e6, ← hstale0]; exact hstf
      simp [clearStep, htl, htf]
    rw [hstep]
    exact ClearInv_congr s done (done ++ [i]) cur hkeq ⟨hInv1, hInv2, hInv3, hInv4⟩
  case pos =>
    have htstale : t.stale = true := by rw [e6, ← hstale0]; exact hst
    have hkc : ∀ c, (decide (c ≠ i) && !(killedIn s done c))
        = !(killedIn s (done ++ [i]) c) := by
      intro c
      rw [killedIn_snoc, hst]
      by_cases hc : c = i
      · subst hc
        simp
      · simp [hc]
    have hstep : clearStep cur i
        = { (t.children.foldl (fun a c => updateNode a c
              (fun ct => { ct with parents := ct.parents.filter (fun p => p ≠ i) }))
              (t.parents.foldl (fun a p => updateNode a p
                (fun pt => { pt with children := removeFirst pt.children i })) cur)) with
            registry := ((t.children.foldl (fun a c => updateNode a c
              (fun ct => { ct with parents := ct.parents.filter (fun p => p ≠ i) }))
              (t.parents.foldl (fun a p => updateNode a p
                (fun pt => { pt with children := removeFirst pt.children i })) cur)).registry.erase i) } := by
      simp [clearStep, htl, htstale]
    rw [hstep]
    refine ⟨?_, ?_, ?_, ?_⟩
    · -- every heap entry, characterised
      intro j t0' hj0
      obtain ⟨t', hl', f1, f2, f3, f4, f5, f6, f7, f8, hlinks'⟩ := hInv1 j t0' hj0
      have hlook : lookupNode ({ (t.children.foldl (fun a c => updateNode a c
              (fun ct => { ct with parents := ct.parents.filter (fun p => p ≠ i) }))
              (t.parents.foldl (fun a p => updateNode a p
                (fun pt => { pt with children := removeFirst pt.children i })) cur)) with
            registry := ((t.children.foldl (fun a c => updateNode a c
              (fun ct => { ct with parents := ct.parents.filter (fun p => p ≠ i) }))
              (t.parents.foldl (fun a p => updateNode a p
                (fun pt => { pt with children := removeFirst pt.children i })) cur)).registry.erase i) }) j
          = some { (({ t' with children := removeIter i (t.parents.count j) t'.children }) : Tensor) with
              parents := if j ∈ t.children
                then t'.parents.filter (fun p => p ≠ i) else t'.parents } := by
        rw [lookup_setRegistry, fold_filterParents_lookup, fold_removeFirst_lookup, hl']
        rfl
      refine ⟨_, hlook, f1, f2, f3, f4, f5, f6, f7, f8, ?_⟩
      intro hjr hk'
      have hkj : killedIn s done j = false ∧ j ≠ i := by
        rw [killedIn_snoc, hst] at hk'
        constructor
        · revert hk'
          cases killedIn s done j <;> simp
        · intro hji
          subst hji
          simp at hk'
      obtain ⟨hp', hc'⟩ := hlinks' hjr hkj.1
      have hparents0 : parentsOf s i = t0.parents := by
        unfold parentsOf
        rw [ht0]
        rfl
      have hchildren0 : childrenOf s j = t0'.children := by
        unfold childrenOf
        rw [hj0]
        rfl
      have hcount : t.parents.count j = t'.children.count i := by
        have c1 : t.parents.count j = t0.parents.count j := by
          rw [htp]
          exact List.count_filter (by simp [hkj.1])
        have c2 : t'.children.count i = t0'.children.count i := by
          rw [hc']
          exact List.count_filter (by simp [hki])
        have c3 := H.sym i hiR j hjr
        rw [hparents0, hchildren0] at c3
        rw [c1, c2, ← c3]
      constructor
      · -- parents of j
        show (if j ∈ t.children then t'.parents.filter (fun p => p ≠ i) else t'.parents)
            = t0'.parents.filter (fun p => !(killedIn s (done ++ [i]) p))
        by_cases hjc : j ∈ t.children
        · rw [if_pos hjc, hp', List.filter_filter]
          exact List.filter_congr (by intro x _; exact hkc x)
        · rw [if_neg hjc, hp']
          have hjnc : j ∉ t0.children := by
            intro hmem
            exact hjc (htc ▸ List.mem_filter.mpr ⟨hmem, by simp [hkj.1]⟩)
          have hchild_i : childrenOf s i = t0.children := by
            unfold childrenOf
            rw [ht0]
            rfl
          have hpj : parentsOf s j = t0'.parents := by
            unfold parentsOf
            rw [hj0]
            rfl
          have hcnt0 : t0'.parents.count i = 0 := by
            have c4 := H.sym j hjr i hiR
            rw [hchild_i, hpj] at c4
            rw [← c4]
            exact List.count_eq_zero.mpr hjnc
          have hinotin : i ∉ t0'.parents := List.count_eq_zero.mp hcnt0
          apply List.filter_congr
          intro x hx
          have hxne : x ≠ i := fun hxe => hinotin (hxe ▸ hx)
          rw [← hkc x]
          simp [hxne]
      · -- children of j
        show removeIter i (t.parents.count j) t'.children
            = t0'.children.filter (fun c => !(killedIn s (done ++ [i]) c))
        rw [hcount, removeIter_count_eq_filter, hc', List.filter_filter]
        exact List.filter_congr (by intro x _; exact hkc x)
    · -- dangling ids stay dangling
      intro j hjn
      rw [lookup_setRegistry, fold_filterParents_lookup, fold_removeFirst_lookup, hInv2 j hjn]
      rfl
    · -- registry
      show ((t.children.foldl _ (t.parents.foldl _ cur)).registry.erase i)
          = s.registry.filter (fun x => !(killedIn s (done ++ [i]) x))
      rw [fold_filterParents_registry, fold_removeFirst_registry, hInv3]
      have hnodup : (s.registry.filter (fun x => !(killedIn s done x))).Nodup :=
        H.nodupR.filter _
      rw [hnodup.erase_eq_filter, List.filter_filter]
      apply List.filter_congr
      intro x _
      rw [← hkc x]
      by_cases hx : x = i
      · subst hx
        simp
      · simp [hx]
    · -- nextId
      show (t.children.foldl _ (t.parents.foldl _ cur)).nextId = s.nextId
      rw [fold_filterParents_nextId, fold_removeFirst_nextId, hInv4]

end ClumsyGrad

namespace ClumsyGrad

theorem clear_fold_inv (s : GState) (H : ClearHyps s) :
    ∀ (todo done : List Nat) (cur : GState), s.registry = done ++ todo →
      ClearInv s done cur → ClearInv s (done ++ todo) (todo.foldl clearStep cur) := by
  intro todo
  induction todo with
  | nil =>
    intro done cur hreg hInv
    simpa using hInv
  | cons i rest ih =>
    intro done cur hreg hInv
    have hstep := clearStep_inv s H done rest i hreg cur hInv
    have hreg' : s.registry = (done ++ [i]) ++ rest := by
      rw [hreg, List.append_assoc]
      rfl
    have := ih (done ++ [i]) (clearStep cur i) hreg' hstep
    rw [List.append_assoc] at this
    simpa using this

/-- The full characterisation of the reclaimer. -/
theorem clear_spec (s : GState) (H : ClearHyps s) :
    ClearInv s s.registry (clear_stale_tensors s) := by
  have := clear_fold_inv s H s.registry [] s (by simp) (ClearInv_init s)
  simpa using this

theorem killedIn_registry (s : GState) (x : Nat) (hx : x ∈ s.registry) :
    killedIn s s.registry x = staleOf s x := by
  simp [killedIn, hx]

/-- The stale flag of every node survives the reclaimer. -/
theorem staleOf_clear (s : GState) (j : Nat) :
    staleOf (clear_stale_tensors s) j = staleOf s j := by
  unfold staleOf
  rw [proj_trans (P := eraseLinks) (Q := fun t => t.stale) (fun t => rfl)
    (clear_eraseLinks s j)]

/-- Registry after reclamation: exactly the non-stale entries, in order. -/
theorem clear_registry (s : GState) (H : ClearHyps s) :
    (clear_stale_tensors s).registry = s.registry.filter (fun i => !(staleOf s i)) := by
  rw [(clear_spec s H).2.2.1]
  apply List.filter_congr
  intro x hx
  rw [killedIn_registry s x hx]

/-- Links of a surviving registered node after reclamation: the original
lists with stale entries dropped (order preserved). -/
theorem clear_links (s : GState) (H : ClearHyps s) (j : Nat) (hj : j ∈ s.registry)
    (hns : staleOf s j = false) :
    parentsOf (clear_stale_tensors s) j = (parentsOf s j).filter (fun p => !(staleOf s p)) ∧
    childrenOf (clear_stale_tensors s) j = (childrenOf s j).filter (fun c => !(staleOf s c)) := by
  have hpres := H.present j hj
  obtain ⟨t0, ht0⟩ : ∃ t0, lookupNode s j = some t0 := by
    cases hl : lookupNode s j with
    | none => rw [hl] at hpres; simp at hpres
    | some t0 => exact ⟨t0, rfl⟩
  obtain ⟨t, htl, _, _, _, _, _, _, _, _, hlinks⟩ := (clear_spec s H).1 j t0 ht0
  have hkj : killedIn s s.registry j = false := by
    rw [killedIn_registry s j hj, hns]
  obtain ⟨hp, hc⟩ := hlinks hj hkj
  constructor
  · unfold parentsOf
    rw [htl, ht0]
    simp only [Option.map_some', Option.getD_some]
    rw [hp]
    apply List.filter_congr
    intro x hx
    have : x ∈ s.registry := H.closedP j hj x (by
      unfold parentsOf
      rw [ht0]
      simpa using hx)
    rw [killedIn_registry s x this]
  · unfold childrenOf
    rw [htl, ht0]
    simp only [Option.map_some', Option.getD_some]
    rw [hc]
    apply List.filter_congr
    intro x hx
    have : x ∈ s.registry := H.closedC j hj x (by
      unfold childrenOf
      rw [ht0]
      simpa using hx)
    rw [killedIn_registry s x this]

/-- When no registered node is stale, the reclaimer is the identity. -/
theorem clear_no_stale (s : GState) (h : ∀ i ∈ s.registry, staleOf s i = false) :
    clear_stale_tensors s = s := by
  unfold clear_stale_tensors
  have haux : ∀ todo : List Nat, (∀ i ∈ todo, staleOf s i = false) →
      todo.foldl clearStep s = s := by
    intro todo
    induction todo with
    | nil => intro _; rfl
    | cons i rest ih =>
      intro hall
      rw [List.foldl_cons]
      have hstep : clearStep s i = s := by
        unfold clearStep
        cases hl : lookupNode s i with
        | none => rfl
        | some t =>
          have : t.stale = false := by
            have hs := hall i (by simp)
            unfold staleOf at hs
            rw [hl] at hs
            exact hs
          simp [this]
      rw [hstep]
      exact ih (fun x hx => hall x (by simp [hx]))
  exact haux s.registry h

/-- The reclaimer is idempotent. -/
theorem clear_idem (s : GState) (H : ClearHyps s) :
    clear_stale_tensors (clear_stale_tensors s) = clear_stale_tensors s := by
  apply clear_no_stale
  intro i hi
  rw [clear_registry s H] at hi
  obtain ⟨him, hns⟩ := List.mem_filter.mp hi
  rw [staleOf_clear]
  revert hns
  cases staleOf s i <;> simp

end ClumsyGrad

/-! ## Claims C9 and C4 -/

namespace ClumsyGrad

theorem ClearHyps_of_Invb (s : GState) (h : Invb s = true) : ClearHyps s := by
  unfold Invb at h
  simp only [Bool.and_eq_true, List.all_eq_true, decide_eq_true_eq] at h
  obtain ⟨⟨⟨⟨⟨⟨h1, h2⟩, h3⟩, h4⟩, h5⟩, h6⟩, h7⟩ := h
  refine ⟨h4, ?_, ?_, ?_, ?_⟩
  · intro i hi
    exact h5 i hi
  · intro i hi p hp
    exact (h6 i hi).1 p hp
  · intro i hi c hc
    exact (h6 i hi).2 c hc
  · intro i hi q hq
    exact h7 i hi q hq

/-- C9: `clear_stale_tensors` removes every registered stale tensor from the
registry, from each surviving node's `children` list and from each surviving
node's `parents` tuple (filtering by id, order preserved), leaves every
non-stale registered tensor's links otherwise untouched and every other
field of every tensor unchanged; it is idempotent and a no-op when no
registered tensor is stale. -/
theorem C9_clear_stale_tensors_spec (s : GState) (h : Invb s = true) :
    ((clear_stale_tensors s).registry = s.registry.filter (fun i => !(staleOf s i))) ∧
    (∀ j, staleOf (clear_stale_tensors s) j = staleOf s j) ∧
    (∀ j, (lookupNode (clear_stale_tensors s) j).map eraseLinks
        = (lookupNode s j).map eraseLinks) ∧
    (∀ j ∈ s.registry, staleOf s j = false →
      parentsOf (clear_stale_tensors s) j
          = (parentsOf s j).filter (fun p => !(staleOf s p)) ∧
      childrenOf (clear_stale_tensors s) j
          = (childrenOf s j).filter (fun c => !(staleOf s c))) ∧
    clear_stale_tensors (clear_stale_tensors s) = clear_stale_tensors s ∧
    ((∀ i ∈ s.registry, staleOf s i = false) → clear_stale_tensors s = s) := by
  have H := ClearHyps_of_Invb s h
  exact ⟨clear_registry s H, staleOf_clear s, clear_eraseLinks s,
    fun j hj hns => clear_links s H j hj hns, clear_idem s H, clear_no_stale s⟩

/-- The concrete graph for the C9 witness and C4 counterexample:
`a = Parameter(2×3)` (id 0), `x = a.T()` (id 1), then `x.T()` marks id 1
stale and returns id 0. -/
def c4state : GState :=
  (T (mkTensor emptyState ⟨[2, 3], [1, 2, 3, 4, 5, 6]⟩ TensorType.PARAMETER).1 0).1

/-- `c4state` after the double transpose marked node 1 stale. -/
def c9state : GState := (T c4state (T (mkTensor emptyState
  ⟨[2, 3], [1, 2, 3, 4, 5, 6]⟩ TensorType.PARAMETER).1 0).2).1

/-- Witness for C9: reclaiming the concrete graph removes exactly the stale
transpose node from the registry. -/
theorem C9_clear_stale_tensors_spec_witness :
    Invb c9state = true ∧
    (clear_stale_tensors c9state).registry
      = c9state.registry.filter (fun i => !(staleOf c9state i)) :=
  ⟨by decide, (C9_clear_stale_tensors_spec c9state (by decide)).1⟩

theorem T_eq_create (s : GState) (x : Nat) (tx : Tensor) (hx : lookupNode s x = some tx)
    (hguard : ¬ (tx.grad_fn = some GradFnTag.transpose_backward ∧ tx.parents.length = 1)) :
    T s x = create_node s (NArray.transposeData tx.data)
      (some GradFnTag.transpose_backward) [x] [] := by
  unfold T
  rw [hx]
  show (match tx.grad_fn, tx.parents with
    | some GradFnTag.transpose_backward, [p] =>
      (updateNode s x (fun t => { t with stale := true }), p)
    | _, _ => create_node s (NArray.transposeData tx.data)
        (some GradFnTag.transpose_backward) [x] []) = _
  split
  · next p heq1 heq2 =>
    exact absurd ⟨heq1, by rw [heq2]; rfl⟩ hguard
  · rfl

theorem T_transpose_branch (s : GState) (x : Nat) (tx : Tensor) (p : Nat)
    (hx : lookupNode s x = some tx)
    (hgf : tx.grad_fn = some GradFnTag.transpose_backward) (hps : tx.parents = [p]) :
    T s x = (updateNode s x (fun t => { t with stale := true }), p) := by
  unfold T
  rw [hx]
  show (match tx.grad_fn, tx.parents with
    | some GradFnTag.transpose_backward, [q] =>
      (updateNode s x (fun t => { t with stale := true }), q)
    | _, _ => create_node s (NArray.transposeData tx.data)
        (some GradFnTag.transpose_backward) [x] []) = _
  rw [hgf, hps]

/-- C4 (amended): for every tensor `x` that is not itself a single-parent
transpose node, `x.T().T()` returns the identical original node `x`; the
intermediate singly-transposed node is marked stale, and once the Reclaimer
runs it is removed from the registry and no registered node links to it. -/
theorem C4_double_transpose (s : GState) (x : Nat) (tx : Tensor)
    (hx : lookupNode s x = some tx) (hxid : x ≠ s.nextId)
    (hguard : ¬ (tx.grad_fn = some GradFnTag.transpose_backward ∧ tx.parents.length = 1))
    (hInv2 : Invb (T (T s x).1 (T s x).2).1 = true) :
    (T (T s x).1 (T s x).2).2 = x ∧
    (T s x).2 = s.nextId ∧
    staleOf (T (T s x).1 (T s x).2).1 (T s x).2 = true ∧
    (T s x).2 ∉ (clear_stale_tensors (T (T s x).1 (T s x).2).1).registry ∧
    (∀ j ∈ (clear_stale_tensors (T (T s x).1 (T s x).2).1).registry,
      (T s x).2 ∉ parentsOf (clear_stale_tensors (T (T s x).1 (T s x).2).1) j ∧
      (T s x).2 ∉ childrenOf (clear_stale_tensors (T (T s x).1 (T s x).2).1) j) := by
  have h1 : T s x = create_node s (NArray.transposeData tx.data)
      (some GradFnTag.transpose_backward) [x] [] := T_eq_create s x tx hx hguard
  have hn1 : (T s x).2 = s.nextId := by rw [h1, create_node_newId]
  have hps : s.nextId ∉ [x] := by
    intro hm
    exact hxid (List.mem_singleton.mp hm).symm
  have hlook1 : lookupNode (T s x).1 (T s x).2
      = some { data := NArray.transposeData tx.data
               grad_fn := some GradFnTag.transpose_backward, grad := none
               tensor_type := TensorType.INTERMEDIATE
               requires_grad := List.any [x] (fun p => rgOf s p), stale := false
               parents := [x], children := [], extra := [], version := 0 } := by
    rw [h1, create_node_newId]
    exact create_node_lookup_new s _ _ _ _ hps
  have h2 : T (T s x).1 (T s x).2
      = (updateNode (T s x).1 (T s x).2 (fun t => { t with stale := true }), x) :=
    T_transpose_branch (T s x).1 (T s x).2 _ x hlook1 rfl rfl
  have hres : (T (T s x).1 (T s x).2).2 = x := by rw [h2]
  have hstale : staleOf (T (T s x).1 (T s x).2).1 (T s x).2 = true := by
    rw [h2]
    unfold staleOf
    rw [lookup_update_self, hlook1]
    rfl
  have H2 := ClearHyps_of_Invb _ hInv2
  have hreg := clear_registry _ H2
  refine ⟨hres, hn1, hstale, ?_, ?_⟩
  · intro hmem
    rw [hreg] at hmem
    have := (List.mem_filter.mp hmem).2
    rw [hstale] at this
    simp at this
  · intro j hj
    rw [hreg] at hj
    obtain ⟨hjm, hjns⟩ := List.mem_filter.mp hj
    have hjns' : staleOf (T (T s x).1 (T s x).2).1 j = false := by
      revert hjns
      cases staleOf (T (T s x).1 (T s x).2).1 j <;> simp
    obtain ⟨hp, hc⟩ := clear_links _ H2 j hjm hjns'
    constructor
    · rw [hp]
      intro hmem
      have := (List.mem_filter.mp hmem).2
      rw [hstale] at this
      simp at this
    · rw [hc]
      intro hmem
      have := (List.mem_filter.mp hmem).2
      rw [hstale] at this
      simp at this

/-- Counterexample for C4 as stated: take `x = a.T()` (a node that is itself
a transpose).  Then `x.T()` returns `a`, and the second `.T()` builds a
fresh transpose node (id 2), so `x.T().T()` is not the node `x` (id 1). -/
theorem C4_counterexample :
    (lookupNode c4state 1).isSome = true ∧
    (T (T c4state 1).1 (T c4state 1).2).2 = 2 ∧
    (T (T c4state 1).1 (T c4state 1).2).2 ≠ 1 := by
  refine ⟨by decide, by decide, by decide⟩

/-- Witness for C4: the parameter leaf (id 0) of `c4state` is not a
transpose node, and its double transpose is itself. -/
theorem C4_double_transpose_witness :
    (lookupNode (mkTensor emptyState ⟨[2, 3], [1, 2, 3, 4, 5, 6]⟩ TensorType.PARAMETER).1 0
        = some (initTensor ⟨[2, 3], [1, 2, 3, 4, 5, 6]⟩ TensorType.PARAMETER)) ∧
    ((0 : Nat) ≠ (mkTensor emptyState ⟨[2, 3], [1, 2, 3, 4, 5, 6]⟩ TensorType.PARAMETER).1.nextId) ∧
    (¬ ((initTensor ⟨[2, 3], [1, 2, 3, 4, 5, 6]⟩ TensorType.PARAMETER).grad_fn
          = some GradFnTag.transpose_backward ∧
        (initTensor ⟨[2, 3], [1, 2, 3, 4, 5, 6]⟩ TensorType.PARAMETER).parents.length = 1)) ∧
    (T (T (mkTensor emptyState ⟨[2, 3], [1, 2, 3, 4, 5, 6]⟩ TensorType.PARAMETER).1 0).1
        (T (mkTensor emptyState ⟨[2, 3], [1, 2, 3, 4, 5, 6]⟩ TensorType.PARAMETER).1 0).2).2 = 0 :=
  ⟨by decide, by decide, by decide,
    (C4_double_transpose (mkTensor emptyState ⟨[2, 3], [1, 2, 3, 4, 5, 6]⟩ TensorType.PARAMETER).1
      0 (initTensor ⟨[2, 3], [1, 2, 3, 4, 5, 6]⟩ TensorType.PARAMETER)
      (by decide) (by decide) (by decide) (by decide)).1⟩

end ClumsyGrad

/-! ## Claim C1: the reverse topological order -/

namespace ClumsyGrad

theorem lookup_mem (s : GState) (i : Nat) (t : Tensor) (h : lookupNode s i = some t) :
    (i, t) ∈ s.nodes := by
  unfold lookupNode at h
  cases hf : s.nodes.find? (fun kt => kt.1 = i) with
  | none => rw [hf] at h; simp at h
  | some kt =>
    rw [hf] at h
    simp only [Option.map_some', Option.some.injEq] at h
    have hp := List.find?_some hf
    have hm := List.mem_of_find?_eq_some hf
    simp only [decide_eq_true_eq] at hp
    have : kt = (i, t) := by
      obtain ⟨k1, k2⟩ := kt
      simp only at hp h
      rw [hp, h]
    rw [← this]
    exact hm

theorem WF_parents (s : GState) (hWF : WFb s = true) {i : Nat} {t : Tensor}
    (h : lookupNode s i = some t) :
    ∀ p ∈ t.parents, p < i ∧ (lookupNode s p).isSome = true := by
  unfold WFb at hWF
  simp only [List.all_eq_true, Bool.and_eq_true, decide_eq_true_eq] at hWF
  intro p hp
  exact hWF (i, t) (lookup_mem s i t h) p hp

theorem rgOf_none (s : GState) (n : Nat) (h : lookupNode s n = none) :
    rgOf s n = false := by
  unfold rgOf
  rw [h]
  rfl

theorem rgOf_some (s : GState) (n : Nat) (t : Tensor) (h : lookupNode s n = some t) :
    rgOf s n = t.requires_grad := by
  unfold rgOf
  rw [h]
  rfl

theorem parentsOf_some (s : GState) (n : Nat) (t : Tensor) (h : lookupNode s n = some t) :
    parentsOf s n = t.parents := by
  unfold parentsOf
  rw [h]
  rfl

theorem GReach_root_rg (s : GState) (r x : Nat) (h : GReach s r x) : rgOf s r = true := by
  induction h with
  | refl h0 => exact h0
  | step _ _ _ ih => exact ih

theorem GReach_trans (s : GState) (a b c : Nat) (h1 : GReach s a b) (h2 : GReach s b c) :
    GReach s a c := by
  induction h2 with
  | refl _ => exact h1
  | step _ hp hr ih => exact GReach.step ih hp hr

/-- Invariant of the depth-first `build_topo` traversal: `v` is the visited
set, `o` the order built so far, and every visited-but-unfinished node (the
recursion stack) has id at least `stk`. -/
def TopoInv (s : GState) (stk : Nat) (v o : List Nat) : Prop :=
  o.Nodup ∧
  (∀ x ∈ o, x ∈ v) ∧
  (∀ x ∈ o, rgOf s x = true) ∧
  o.Pairwise (fun a b => b ∉ parentsOf s a) ∧
  (∀ a ∈ o, ∀ p ∈ parentsOf s a, rgOf s p = true → p ∈ o) ∧
  (∀ x ∈ v, x ∉ o → stk ≤ x)

theorem TopoInv_mono (s : GState) (stk stk' : Nat) (v o : List Nat) (h : stk' ≤ stk)
    (hInv : TopoInv s stk v o) : TopoInv s stk' v o :=
  ⟨hInv.1, hInv.2.1, hInv.2.2.1, hInv.2.2.2.1, hInv.2.2.2.2.1,
    fun x hx hxo => le_trans h (hInv.2.2.2.2.2 x hx hxo)⟩

/-- The full inductive specification of `build_topo` at a given fuel. -/
def BTMain (s : GState) (fuel : Nat) : Prop :=
  ∀ (n : Nat) (v o : List Nat), n < fuel → TopoInv s (n + 1) v o →
    (∀ x ∈ v, x ∈ (build_topo s fuel n (v, o)).1) ∧
    (∃ tl, (build_topo s fuel n (v, o)).2 = o ++ tl) ∧
    (∀ x, x ∈ (build_topo s fuel n (v, o)).1 → x ∉ v → x ≤ n ∧ GReach s n x) ∧
    (∀ x ∈ (build_topo s fuel n (v, o)).2, x ∈ o ∨ x ∉ v) ∧
    (∀ x, x ∈ (build_topo s fuel n (v, o)).1 → x ∉ (build_topo s fuel n (v, o)).2 →
      x ∈ v ∧ x ∉ o) ∧
    TopoInv s (n + 1) (build_topo s fuel n (v, o)).1 (build_topo s fuel n (v, o)).2 ∧
    (rgOf s n = true → n ∉ v → n ∈ (build_topo s fuel n (v, o)).2)

end ClumsyGrad

namespace ClumsyGrad

/-- Conclusion of the parents-fold inside `build_topo` at node `n`:
accumulator invariants, plus every gradient-requiring processed parent is in
the order, plus monotonicity of the order. -/
def FoldConc (s : GState) (n : Nat) (v o : List Nat) (ps oi : List Nat)
    (r : List Nat × List Nat) : Prop :=
  (∀ x ∈ n :: v, x ∈ r.1) ∧
  (∃ tl, r.2 = o ++ tl) ∧
  (∀ x ∈ r.1, x ∈ n :: v ∨ (x < n ∧ GReach s n x)) ∧
  (∀ x ∈ r.1, x ∉ r.2 → x ∈ n :: v ∧ x ∉ o) ∧
  TopoInv s n r.1 r.2 ∧
  (∀ x ∈ r.2, x ∈ o ∨ x < n) ∧
  (∀ x ∈ r.2, x ∈ o ∨ x ∉ v) ∧
  (∀ p ∈ ps, rgOf s p = true → p ∈ r.2) ∧
  (∀ x ∈ oi, x ∈ r.2)

theorem bt_fold (s : GState) (fuel n : Nat)
    (hIH : BTMain s fuel) (hfn : n ≤ fuel)
    (v o : List Nat) (hrg : rgOf s n = true) :
    ∀ (ps : List Nat), (∀ p ∈ ps, p < n ∧ p ∈ parentsOf s n) →
    ∀ (vi oi : List Nat),
      (∀ x ∈ n :: v, x ∈ vi) →
      (∃ tl, oi = o ++ tl) →
      (∀ x ∈ vi, x ∈ n :: v ∨ (x < n ∧ GReach s n x)) →
      (∀ x ∈ vi, x ∉ oi → x ∈ n :: v ∧ x ∉ o) →
      TopoInv s n vi oi →
      (∀ x ∈ oi, x ∈ o ∨ x < n) →
      (∀ x ∈ oi, x ∈ o ∨ x ∉ v) →
      FoldConc s n v o ps oi (ps.foldl (fun a p => build_topo s fuel p a) (vi, oi)) := by
  intro ps
  induction ps with
  | nil =>
    intro _ vi oi fa fb fc fd fe fg fh
    exact ⟨fa, fb, fc, fd, fe, fg, fh, by simp, fun x hx => hx⟩
  | cons p ps' ih =>
    intro hps vi oi fa fb fc fd fe fg fh
    obtain ⟨hpn, hpp⟩ := hps p (by simp)
    have hcall := hIH p vi oi (lt_of_lt_of_le hpn hfn)
      (TopoInv_mono s n (p + 1) vi oi hpn fe)
    obtain ⟨m1, ⟨tl2, m2⟩, m3, m4, m5, m6, m7⟩ := hcall
    obtain ⟨tl1, fb1⟩ := fb
    -- invariants for the new accumulator
    have fa' : ∀ x ∈ n :: v, x ∈ (build_topo s fuel p (vi, oi)).1 :=
      fun x hx => m1 x (fa x hx)
    have fb' : ∃ tl, (build_topo s fuel p (vi, oi)).2 = o ++ tl :=
      ⟨tl1 ++ tl2, by rw [m2, fb1, List.append_assoc]⟩
    have fc' : ∀ x ∈ (build_topo s fuel p (vi, oi)).1,
        x ∈ n :: v ∨ (x < n ∧ GReach s n x) := by
      intro x hx
      by_cases hxv : x ∈ vi
      · exact fc x hxv
      · obtain ⟨hle, hreach⟩ := m3 x hx hxv
        refine Or.inr ⟨lt_of_le_of_lt hle hpn, ?_⟩
        exact GReach_trans s n p x
          (GReach.step (GReach.refl hrg) hpp (GReach_root_rg s p x hreach)) hreach
    have fd' : ∀ x ∈ (build_topo s fuel p (vi, oi)).1,
        x ∉ (build_topo s fuel p (vi, oi)).2 → x ∈ n :: v ∧ x ∉ o := by
      intro x hx hxo
      obtain ⟨hxv, hxoi⟩ := m5 x hx hxo
      exact fd x hxv hxoi
    have fe' : TopoInv s n (build_topo s fuel p (vi, oi)).1
        (build_topo s fuel p (vi, oi)).2 := by
      refine ⟨m6.1, m6.2.1, m6.2.2.1, m6.2.2.2.1, m6.2.2.2.2.1, ?_⟩
      intro x hx hxo
      obtain ⟨hxv, hxoi⟩ := m5 x hx hxo
      exact fe.2.2.2.2.2 x hxv hxoi
    have fg' : ∀ x ∈ (build_topo s fuel p (vi, oi)).2, x ∈ o ∨ x < n := by
      intro x hx
      rcases m4 x hx with hxoi | hxnv
      · exact fg x hxoi
      · have hxv' : x ∈ (build_topo s fuel p (vi, oi)).1 := m6.2.1 x hx
        obtain ⟨hle, _⟩ := m3 x hxv' hxnv
        exact Or.inr (lt_of_le_of_lt hle hpn)
    have fh' : ∀ x ∈ (build_topo s fuel p (vi, oi)).2, x ∈ o ∨ x ∉ v := by
      intro x hx
      rcases m4 x hx with hxoi | hxnv
      · exact fh x hxoi
      · exact Or.inr (fun hxv => hxnv (fa x (by simp [hxv])))
    have hoi_mono : ∀ x ∈ oi, x ∈ (build_topo s fuel p (vi, oi)).2 := by
      intro x hx
      rw [m2]
      exact List.mem_append_left _ hx
    have hp_in : rgOf s p = true → p ∈ (build_topo s fuel p (vi, oi)).2 := by
      intro hrgp
      by_cases hpv : p ∈ vi
      · by_cases hpoi : p ∈ oi
        · exact hoi_mono p hpoi
        · exact absurd (fe.2.2.2.2.2 p hpv hpoi) (by omega)
      · exact m7 hrgp hpv
    have ihres := ih (fun q hq => hps q (by simp [hq]))
      (build_topo s fuel p (vi, oi)).1 (build_topo s fuel p (vi, oi)).2
      fa' fb' fc' fd' fe' fg' fh'
    rw [List.foldl_cons]
    obtain ⟨r1, r2, r3, r4, r5, r6, r7, r8, r9⟩ := ihres
    refine ⟨r1, r2, r3, r4, r5, r6, r7, ?_, ?_⟩
    · intro q hq hrgq
      rcases List.mem_cons.mp hq with hqp | hqps
      · subst hqp
        exact r9 q (hp_in hrgq)
      · exact r8 q hqps hrgq
    · intro x hx
      exact r9 x (hoi_mono x hx)

end ClumsyGrad

namespace ClumsyGrad

theorem bt_main (s : GState) (hWF : WFb s = true) : ∀ fuel, BTMain s fuel := by
  intro fuel
  induction fuel with
  | zero =>
    intro n v o hn _
    exact absurd hn (by omega)
  | succ fuel ih =>
    intro n v o hn hvo
    cases hl : lookupNode s n with
    | none =>
      have hbt : build_topo s (fuel + 1) n (v, o) = (v, o) := by
        simp [build_topo, hl]
      rw [hbt]
      refine ⟨fun x hx => hx, ⟨[], by simp⟩, fun x hx hnx => absurd hx hnx,
        fun x hx => Or.inl hx, fun x hx hxo => ⟨hx, hxo⟩, hvo, ?_⟩
      intro hrg _
      rw [rgOf_none s n hl] at hrg
      exact absurd hrg (by simp)
    | some t =>
      by_cases hguard : n ∈ v ∨ ¬ t.requires_grad = true
      · have hbt : build_topo s (fuel + 1) n (v, o) = (v, o) := by
          simp only [build_topo, hl]
          rw [if_pos (by simpa using hguard)]
        rw [hbt]
        refine ⟨fun x hx => hx, ⟨[], by simp⟩, fun x hx hnx => absurd hx hnx,
          fun x hx => Or.inl hx, fun x hx hxo => ⟨hx, hxo⟩, hvo, ?_⟩
        intro hrg hnv
        rcases hguard with hnvv | hntr
        · exact absurd hnvv hnv
        · rw [rgOf_some s n t hl] at hrg
          exact absurd hrg hntr
      · push_neg at hguard
        obtain ⟨hnv, htr⟩ := hguard
        have hrg : rgOf s n = true := by rw [rgOf_some s n t hl]; exact htr
        have hbt : build_topo s (fuel + 1) n (v, o)
            = ((t.parents.foldl (fun a p => build_topo s fuel p a) (n :: v, o)).1,
               (t.parents.foldl (fun a p => build_topo s fuel p a) (n :: v, o)).2 ++ [n]) := by
          simp only [build_topo, hl]
          rw [if_neg (by simpa using And.intro hnv htr)]
        rw [hbt]
        have hps : ∀ p ∈ t.parents, p < n ∧ p ∈ parentsOf s n := by
          intro p hp
          exact ⟨(WF_parents s hWF hl p hp).1, by rw [parentsOf_some s n t hl]; exact hp⟩
        have fe0 : TopoInv s n (n :: v) o := by
          refine ⟨hvo.1, fun x hx => by simp [hvo.2.1 x hx], hvo.2.2.1, hvo.2.2.2.1,
            hvo.2.2.2.2.1, ?_⟩
          intro x hx hxo
          rcases List.mem_cons.mp hx with hxn | hxv
          · omega
          · have := hvo.2.2.2.2.2 x hxv hxo
            omega
        have fold := bt_fold s fuel n ih (by omega) v o hrg t.parents hps (n :: v) o
          (fun x hx => hx) ⟨[], by simp⟩ (fun x hx => Or.inl hx)
          (fun x hx hxo => ⟨hx, hxo⟩) fe0 (fun x hx => Or.inl hx) (fun x hx => Or.inl hx)
        obtain ⟨F1, ⟨tl, F2⟩, F3, F4, F5, F6, F7, F8, F9⟩ := fold
        have hnof : n ∉ (t.parents.foldl (fun a p => build_topo s fuel p a) (n :: v, o)).2 := by
          intro hmem
          rcases F6 n hmem with hno | hlt
          · exact hnv (hvo.2.1 n hno)
          · omega
        refine ⟨?_, ?_, ?_, ?_, ?_, ?_, ?_⟩
        · intro x hx
          exact F1 x (by simp [hx])
        · exact ⟨tl ++ [n], by rw [F2, List.append_assoc]⟩
        · intro x hx hnx
          rcases F3 x hx with hxnv | ⟨hlt, hreach⟩
          · rcases List.mem_cons.mp hxnv with hxn | hxv
            · subst hxn
              exact ⟨le_refl x, GReach.refl hrg⟩
            · exact absurd hxv hnx
          · exact ⟨le_of_lt hlt, hreach⟩
        · intro x hx
          rcases List.mem_append.mp hx with hxof | hxn
          · exact F7 x hxof
          · simp only [List.mem_singleton] at hxn
            subst hxn
            exact Or.inr hnv
        · intro x hx hxo
          have hxof : x ∉ (t.parents.foldl (fun a p => build_topo s fuel p a) (n :: v, o)).2 :=
            fun hm => hxo (List.mem_append_left _ hm)
          have hxn : x ≠ n := by
            intro hxe
            exact hxo (by simp [hxe])
          obtain ⟨hxnv, hxno⟩ := F4 x hx hxof
          rcases List.mem_cons.mp hxnv with h1 | h2
          · exact absurd h1 hxn
          · exact ⟨h2, hxno⟩
        · -- TopoInv after appending n
          refine ⟨?_, ?_, ?_, ?_, ?_, ?_⟩
          · rw [List.nodup_append]
            refine ⟨F5.1, by simp, ?_⟩
            intro a ha hb
            simp only [List.mem_singleton] at hb
            subst hb
            exact hnof ha
          · intro x hx
            rcases List.mem_append.mp hx with hxof | hxn
            · exact F5.2.1 x hxof
            · simp only [List.mem_singleton] at hxn
              subst hxn
              exact F1 x (by simp)
          · intro x hx
            rcases List.mem_append.mp hx with hxof | hxn
            · exact F5.2.2.1 x hxof
            · simp only [List.mem_singleton] at hxn
              subst hxn
              exact hrg
          · rw [List.pairwise_append]
            refine ⟨F5.2.2.2.1, by simp, ?_⟩
            intro a ha b hb
            simp only [List.mem_singleton] at hb
            rw [hb]
            intro hmem
            cases hla : lookupNode s a with
            | none =>
              unfold parentsOf at hmem
              rw [hla] at hmem
              simp at hmem
            | some ta =>
              have hmem' : n ∈ ta.parents := by
                rw [parentsOf_some s a ta hla] at hmem
                exact hmem
              have hna : n < a := (WF_parents s hWF hla n hmem').1
              rcases F6 a ha with hao | halt
              · have : n ∈ o := hvo.2.2.2.2.1 a hao n hmem hrg
                exact hnv (hvo.2.1 n this)
              · omega
          · intro a ha p hp hrgp
            rcases List.mem_append.mp ha with haof | han
            · exact List.mem_append_left _ (F5.2.2.2.2.1 a haof p hp hrgp)
            · simp only [List.mem_singleton] at han
              subst han
              apply List.mem_append_left
              apply F8 p _ hrgp
              rw [parentsOf_some s a t hl] at hp
              exact hp
          · intro x hx hxo
            have hxof : x ∉ (t.parents.foldl (fun a p => build_topo s fuel p a) (n :: v, o)).2 :=
              fun hm => hxo (List.mem_append_left _ hm)
            have hxn : x ≠ n := by
              intro hxe
              exact hxo (by simp [hxe])
            obtain ⟨hxnv, hxno⟩ := F4 x hx hxof
            rcases List.mem_cons.mp hxnv with h1 | h2
            · exact absurd h1 hxn
            · exact hvo.2.2.2.2.2 x h2 hxno
        · intro _ _
          exact List.mem_append_right _ (by simp)

/-- C1: the topological order built by `build_topo` (as `backward` invokes
it, with fuel `root + 1`, sufficient under `WFb` since parents carry smaller
ids) contains each node at most once, contains only nodes that require
gradients, contains only nodes reachable from the root along
gradient-requiring parent paths, and places every node after all of its
included parents — so iterating it in reverse processes every node before
any of its parents. -/
theorem C1_topological_order (s : GState) (root : Nat) (hWF : WFb s = true) :
    ((build_topo s (root + 1) root ([], [])).2).Nodup ∧
    (∀ x ∈ (build_topo s (root + 1) root ([], [])).2, rgOf s x = true) ∧
    (∀ x ∈ (build_topo s (root + 1) root ([], [])).2, GReach s root x) ∧
    ((build_topo s (root + 1) root ([], [])).2).Pairwise
      (fun a b => b ∉ parentsOf s a) := by
  have hinv0 : TopoInv s (root + 1) [] [] := by
    refine ⟨by simp, by simp, by simp, by simp, by simp, by simp⟩
  have h := bt_main s hWF (root + 1) root [] [] (by omega) hinv0
  obtain ⟨_, _, h3, _, _, h6, _⟩ := h
  refine ⟨h6.1, h6.2.2.1, ?_, h6.2.2.2.1⟩
  intro x hx
  exact (h3 x (h6.2.1 x hx) (by simp)).2

/-- The concrete diamond graph for the C1 witness:
`a = Parameter([1.0])` (id 0), `m = a * 2` (id 1), `k = a * 3` (id 2),
`d = m + k` (id 3). -/
def c1state : GState :=
  (add (mul (mul (mkTensor emptyState ⟨[1], [1]⟩ TensorType.PARAMETER).1
      0 (PyVal.scalar 2)).1 0 (PyVal.scalar 3)).1 1 (PyVal.tensor 2)).1

/-- Witness for C1 on the concrete diamond graph
`a = Parameter([1.0])`, `m = a * 2`, `k = a * 3`, `d = m + k`. -/
theorem C1_topological_order_witness :
    WFb c1state = true ∧
    (((build_topo c1state 4 3 ([], [])).2).Nodup ∧
      (∀ x ∈ (build_topo c1state 4 3 ([], [])).2, rgOf c1state x = true) ∧
      (∀ x ∈ (build_topo c1state 4 3 ([], [])).2, GReach c1state 3 x) ∧
      ((build_topo c1state 4 3 ([], [])).2).Pairwise
        (fun a b => b ∉ parentsOf c1state a)) :=
  ⟨by decide, C1_topological_order c1state 3 (by decide)⟩

end ClumsyGrad

/-! ## Claims C8 and C3: the processing loop's effect on gradients -/

namespace ClumsyGrad

theorem WFb_registry_irrelevant (s : GState) (r : List Nat) :
    WFb { s with registry := r } = WFb s := rfl

theorem WFb_update (s : GState) (i : Nat) (f : Tensor → Tensor)
    (hf : ∀ t, ∀ p ∈ (f t).parents, p ∈ t.parents) (h : WFb s = true) :
    WFb (updateNode s i f) = true := by
  unfold WFb at h ⊢
  simp only [List.all_eq_true, Bool.and_eq_true, decide_eq_true_eq] at h ⊢
  intro kt' hkt' p hp
  have hkt2 : kt' ∈ s.nodes.map (fun kt => if kt.1 = i then (kt.1, f kt.2) else kt) := hkt'
  simp only [List.mem_map] at hkt2
  obtain ⟨kt, hkt, hmap⟩ := hkt2
  have hpmem : p ∈ kt.2.parents ∧ kt'.1 = kt.1 := by
    by_cases hki : kt.1 = i
    · rw [if_pos hki] at hmap
      subst hmap
      exact ⟨hf kt.2 p hp, rfl⟩
    · rw [if_neg hki] at hmap
      subst hmap
      exact ⟨hp, rfl⟩
  obtain ⟨hb, hlt⟩ := h kt hkt p hpmem.1
  refine ⟨by rw [hpmem.2]; exact hb, ?_⟩
  rw [lookup_update]
  split
  · cases h2 : lookupNode s p with
    | none => rw [h2] at hlt; simp at hlt
    | some u => rfl
  · exact hlt

theorem WFb_foldl {α : Type} (l : List α) (F : GState → α → GState)
    (hF : ∀ a x, WFb a = true → WFb (F a x) = true) (st : GState)
    (h : WFb st = true) : WFb (l.foldl F st) = true := by
  induction l generalizing st with
  | nil => exact h
  | cons x xs ih => exact ih (F st x) (hF st x h)

theorem WFb_clearStep (st : GState) (i : Nat) (h : WFb st = true) :
    WFb (clearStep st i) = true := by
  unfold clearStep
  split
  · exact h
  · split
    · rw [WFb_registry_irrelevant]
      apply WFb_foldl _ _ _ _ (WFb_foldl _ _ _ _ h)
      · intro a x ha
        apply WFb_update _ _ _ _ ha
        intro t p hp
        exact List.mem_of_mem_filter hp
      · intro a x ha
        apply WFb_update _ _ _ _ ha
        intro t p hp
        exact hp
    · exact h

theorem WFb_clear (s : GState) (h : WFb s = true) :
    WFb (clear_stale_tensors s) = true := by
  unfold clear_stale_tensors
  exact WFb_foldl _ _ (fun a x ha => WFb_clearStep a x ha) s h

end ClumsyGrad

namespace ClumsyGrad

theorem mem_map_fst_zip {α β : Type} (l1 : List α) (l2 : List β) (x : α)
    (h : x ∈ (l1.zip l2).map Prod.fst) : x ∈ l1 := by
  induction l1 generalizing l2 with
  | nil => simp [List.zip] at h
  | cons a l1 ih =>
    cases l2 with
    | nil => simp [List.zip] at h
    | cons b l2 =>
      simp only [List.zip_cons_cons, List.map_cons, List.mem_cons] at h
      rcases h with h | h
      · simp [h]
      · exact List.mem_cons_of_mem a (ih l2 h)

theorem lookup_isSome_of_proj {β : Type} {P : Tensor → β} {s s' : GState} {j : Nat}
    (h : (lookupNode s' j).map P = (lookupNode s j).map P) :
    (lookupNode s' j).isSome = (lookupNode s j).isSome := by
  cases h1 : lookupNode s' j <;> cases h2 : lookupNode s j <;> rw [h1, h2] at h <;>
    simp at h ⊢

theorem accumulate_gradOf_not_mem (st : GState) (pairs : List (Nat × NArray)) (n : Nat)
    (h : n ∉ pairs.map Prod.fst) : gradOf (accumulate st pairs) n = gradOf st n := by
  induction pairs generalizing st with
  | nil => rfl
  | cons pg rest ih =>
    have hstep : accumulate st (pg :: rest) = accumulate (accStep st pg) rest := rfl
    rw [hstep, ih _ (fun hm => h (by simp [hm]))]
    exact gradOf_accStep_ne st pg n (fun he => h (by simp [he]))

theorem processNode_gradOf_untouched (st : GState) (selfId : Nat) (kg : Bool)
    (nid n : Nat) (hne : n ≠ nid) (hnp : n ∉ parentsOf st nid) :
    gradOf (processNode st selfId kg nid) n = gradOf st n := by
  unfold processNode
  cases hl : lookupNode st nid with
  | none => rfl
  | some tb =>
    simp only []
    have hpar : n ∉ tb.parents := by
      rw [parentsOf_some st nid tb hl] at hnp
      exact hnp
    cases hf : tb.grad_fn with
    | none => cases tb.grad <;> rfl
    | some f =>
      cases hg : tb.grad with
      | none => rfl
      | some g =>
        simp only []
        have hacc : gradOf (accumulate st (tb.parents.zip (applyGradFn st tb f g))) n
            = gradOf st n :=
          accumulate_gradOf_not_mem st _ n
            (fun hm => hpar (mem_map_fst_zip _ _ n hm))
        split
        · rw [gradOf_update_ne _ _ _ _ hne, hacc]
        · exact hacc

theorem processNode_gradOf_self_none (st : GState) (selfId : Nat) (kg : Bool) (nid : Nat)
    (h : gradOf st nid = none) :
    gradOf (processNode st selfId kg nid) nid = none := by
  cases hl : lookupNode st nid with
  | none =>
    have hid : processNode st selfId kg nid = st := by simp [processNode, hl]
    rw [hid]
    exact h
  | some tb =>
    have hgn : tb.grad = none := by
      unfold gradOf at h
      rw [hl] at h
      exact h
    have hid : processNode st selfId kg nid = st := by
      simp only [processNode, hl, hgn]
      cases tb.grad_fn <;> rfl
    rw [hid]
    exact h

/-- Processing a node clears its gradient when it is an intermediate node
other than the output and gradients are not kept. -/
theorem processNode_clears (st : GState) (out b : Nat) (tb : Tensor) (f : GradFnTag)
    (hl : lookupNode st b = some tb) (hf : tb.grad_fn = some f)
    (hty : tb.tensor_type = TensorType.INTERMEDIATE) (hbo : b ≠ out) :
    gradOf (processNode st out false b) b = none := by
  cases hg : tb.grad with
  | none =>
    have hid : processNode st out false b = st := by simp [processNode, hl, hf, hg]
    rw [hid]
    unfold gradOf
    rw [hl]
    simp [hg]
  | some g =>
    have hstep : processNode st out false b
        = updateNode (accumulate st (tb.parents.zip (applyGradFn st tb f g))) b
            (fun u => { u with grad := none }) := by
      simp only [processNode, hl, hf, hg]
      rw [if_pos (⟨by simp, hty, hbo⟩ :
        (¬ false = true ∧ tb.tensor_type = TensorType.INTERMEDIATE ∧ b ≠ out))]
    rw [hstep]
    have hsome : (lookupNode (accumulate st (tb.parents.zip (applyGradFn st tb f g))) b).isSome
        = true := by
      rw [lookup_isSome_of_proj (accumulate_eraseGrad _ st b), hl]
      rfl
    obtain ⟨tb', hl'⟩ : ∃ tb',
        lookupNode (accumulate st (tb.parents.zip (applyGradFn st tb f g))) b = some tb' := by
      cases h2 : lookupNode (accumulate st (tb.parents.zip (applyGradFn st tb f g))) b with
      | none => rw [h2] at hsome; simp at hsome
      | some u => exact ⟨u, rfl⟩
    exact gradOf_update_self _ _ _ _ hl'

theorem foldContrib_some_eq (cs : List NArray) : ∀ (g : NArray),
    foldContrib (some g) cs = some (cs.foldl NArray.addN g) := by
  induction cs with
  | nil => intro g; rfl
  | cons c cs ih =>
    intro g
    have h1 : foldContrib (some g) (c :: cs) = foldContrib (some (NArray.addN g c)) cs := rfl
    rw [h1, ih, List.foldl_cons]

theorem foldContrib_ne_none (old : Option NArray) (cs : List NArray)
    (h : old ≠ none) : foldContrib old cs ≠ none := by
  cases old with
  | none => exact absurd rfl h
  | some g =>
    rw [foldContrib_some_eq]
    simp

theorem accumulate_grad_some (st : GState) (pairs : List (Nat × NArray)) (n : Nat)
    (h : gradOf st n ≠ none) : gradOf (accumulate st pairs) n ≠ none := by
  rw [accumulate_spec]
  split
  · exact foldContrib_ne_none _ _ h
  · exact h

theorem processNode_grad_some (st : GState) (selfId nid n : Nat)
    (h : gradOf st n ≠ none) :
    gradOf (processNode st selfId true nid) n ≠ none := by
  cases hl : lookupNode st nid with
  | none =>
    have hid : processNode st selfId true nid = st := by simp [processNode, hl]
    rw [hid]
    exact h
  | some tb =>
    cases hf : tb.grad_fn with
    | none =>
      have hid : processNode st selfId true nid = st := by
        simp only [processNode, hl, hf]
      rw [hid]
      exact h
    | some f =>
      cases hg : tb.grad with
      | none =>
        have hid : processNode st selfId true nid = st := by
          simp [processNode, hl, hf, hg]
        rw [hid]
        exact h
      | some g =>
        have hstep : processNode st selfId true nid
            = accumulate st (tb.parents.zip (applyGradFn st tb f g)) := by
          simp only [processNode, hl, hf, hg]
          rw [if_neg (by simp)]
        rw [hstep]
        exact accumulate_grad_some st _ n h

end ClumsyGrad

namespace ClumsyGrad

theorem parentsOf_congr {s s' : GState} {j : Nat}
    (h : (lookupNode s' j).map eraseGrad = (lookupNode s j).map eraseGrad) :
    parentsOf s' j = parentsOf s j := by
  unfold parentsOf
  rw [proj_trans (P := eraseGrad) (Q := fun t => t.parents) (fun t => rfl) h]

/-- A node the memory-saving policy must clear: an intermediate node with a
gradient function, other than the output. -/
def QualNode (s0 : GState) (out n : Nat) : Prop :=
  n ≠ out ∧ ∃ tn, lookupNode s0 n = some tn ∧
    tn.tensor_type = TensorType.INTERMEDIATE ∧ tn.grad_fn ≠ none

theorem loop_clears (s0 : GState) (out : Nat) :
    ∀ (r : List Nat) (st : GState) (D : List Nat),
      (∀ j, (lookupNode st j).map eraseGrad = (lookupNode s0 j).map eraseGrad) →
      r.Pairwise (fun a b => a ∉ parentsOf s0 b) →
      (∀ b ∈ r, ∀ n ∈ D, n ∉ parentsOf s0 b) →
      (∀ n ∈ D, gradOf st n = none) →
      ∀ n, (n ∈ D ∨ (n ∈ r ∧ QualNode s0 out n)) →
        gradOf (r.foldl (fun a nid => processNode a out false nid) st) n = none := by
  intro r
  induction r with
  | nil =>
    intro st D _ _ _ hD n hn
    rcases hn with hn | ⟨hn, _⟩
    · exact hD n hn
    · simp at hn
  | cons b r' ih =>
    intro st D hagree hpw hDr hD n hn
    rw [List.foldl_cons]
    have hagree' : ∀ j, (lookupNode (processNode st out false b) j).map eraseGrad
        = (lookupNode s0 j).map eraseGrad :=
      fun j => (processNode_eraseGrad st out false b j).trans (hagree j)
    have hpar_eq : ∀ m, parentsOf st m = parentsOf s0 m :=
      fun m => parentsOf_congr (hagree m)
    have hpw' := List.pairwise_cons.mp hpw
    by_cases hq : QualNode s0 out b
    · have hbnone : gradOf (processNode st out false b) b = none := by
        obtain ⟨hbo, tn, htn, hty, hgf⟩ := hq
        have hsome : (lookupNode st b).isSome = true := by
          rw [lookup_isSome_of_proj (hagree b), htn]
          rfl
        obtain ⟨tb, htb⟩ : ∃ tb, lookupNode st b = some tb := by
          cases h2 : lookupNode st b with
          | none => rw [h2] at hsome; simp at hsome
          | some u => exact ⟨u, rfl⟩
        have heq : eraseGrad tb = eraseGrad tn := by
          have h3 := hagree b
          rw [htb, htn] at h3
          simpa using h3
        have hty' : tb.tensor_type = TensorType.INTERMEDIATE := by
          have : (eraseGrad tb).tensor_type = (eraseGrad tn).tensor_type := by rw [heq]
          simpa [eraseGrad] using this.trans (by simpa [eraseGrad] using hty)
        have hgf' : tb.grad_fn = tn.grad_fn := by
          have : (eraseGrad tb).grad_fn = (eraseGrad tn).grad_fn := by rw [heq]
          simpa [eraseGrad] using this
        obtain ⟨f, hfe⟩ : ∃ f, tn.grad_fn = some f := by
          cases h4 : tn.grad_fn with
          | none => exact absurd h4 hgf
          | some f => exact ⟨f, rfl⟩
        exact processNode_clears st out b tb f htb (by rw [hgf', hfe]) hty' hbo
      have hD' : ∀ n' ∈ b :: D, gradOf (processNode st out false b) n' = none := by
        intro n' hn'
        rcases List.mem_cons.mp hn' with hnb | hnD
        · subst hnb
          exact hbnone
        · by_cases hnb : n' = b
          · subst hnb
            exact hbnone
          · rw [processNode_gradOf_untouched st out false b n' hnb
              (by rw [hpar_eq]; exact hDr b (by simp) n' hnD)]
            exact hD n' hnD
      have hDr' : ∀ c ∈ r', ∀ n' ∈ b :: D, n' ∉ parentsOf s0 c := by
        intro c hc n' hn'
        rcases List.mem_cons.mp hn' with hnb | hnD
        · subst hnb
          exact hpw'.1 c hc
        · exact hDr c (by simp [hc]) n' hnD
      apply ih (processNode st out false b) (b :: D) hagree' hpw'.2 hDr' hD' n
      rcases hn with hnD | ⟨hnr, hq2⟩
      · exact Or.inl (List.mem_cons_of_mem b hnD)
      · rcases List.mem_cons.mp hnr with hnb | hnr'
        · subst hnb
          exact Or.inl (by simp)
        · exact Or.inr ⟨hnr', hq2⟩
    · have hD' : ∀ n' ∈ D, gradOf (processNode st out false b) n' = none := by
        intro n' hn'
        by_cases hnb : n' = b
        · subst hnb
          exact processNode_gradOf_self_none st out false n' (hD n' hn')
        · rw [processNode_gradOf_untouched st out false b n' hnb
            (by rw [hpar_eq]; exact hDr b (by simp) n' hn')]
          exact hD n' hn'
      apply ih (processNode st out false b) D hagree' hpw'.2
        (fun c hc => hDr c (by simp [hc])) hD' n
      rcases hn with hnD | ⟨hnr, hq2⟩
      · exact Or.inl hnD
      · rcases List.mem_cons.mp hnr with hnb | hnr'
        · subst hnb
          exact absurd hq2 hq
        · exact Or.inr ⟨hnr', hq2⟩

theorem loop_keeps (out : Nat) : ∀ (r : List Nat) (st : GState) (n : Nat),
    gradOf st n ≠ none →
    gradOf (r.foldl (fun a nid => processNode a out true nid) st) n ≠ none := by
  intro r
  induction r with
  | nil => intro st n h; exact h
  | cons b r' ih =>
    intro st n h
    rw [List.foldl_cons]
    exact ih _ n (processNode_grad_some st out b n h)

/-- With `keep_grads` false, the backward loop leaves every intermediate,
gradient-function-bearing node of the order (other than the output) with no
gradient. -/
theorem backwardRun_clears (s0 : GState) (out : Nat) (seed : NArray)
    (hWF0 : WFb s0 = true) :
    ∀ n ∈ (build_topo s0 (out + 1) out ([], [])).2, QualNode s0 out n →
      gradOf (backwardRun s0 out seed false) n = none := by
  intro n hn hq
  have hinv0 : TopoInv s0 (out + 1) [] [] :=
    ⟨by simp, by simp, by simp, by simp, by simp, by simp⟩
  have h := bt_main s0 hWF0 (out + 1) out [] [] (by omega) hinv0
  have hpw_topo := h.2.2.2.2.2.1.2.2.2.1
  have hpw_rev : ((build_topo s0 (out + 1) out ([], [])).2).reverse.Pairwise
      (fun a b => a ∉ parentsOf s0 b) :=
    List.pairwise_reverse.mpr hpw_topo
  have hagree : ∀ j,
      (lookupNode (updateNode s0 out (fun u => { u with grad := some seed })) j).map eraseGrad
        = (lookupNode s0 j).map eraseGrad :=
    fun j => proj_update eraseGrad (fun u => { u with grad := some seed }) (fun u => rfl) s0 out j
  have := loop_clears s0 out ((build_topo s0 (out + 1) out ([], [])).2).reverse
    (updateNode s0 out (fun u => { u with grad := some seed })) []
    hagree hpw_rev (by simp) (by simp) n
    (Or.inr ⟨List.mem_reverse.mpr hn, hq⟩)
  simpa [backwardRun] using this

/-- With `keep_grads` true, the backward loop never clears a gradient. -/
theorem backwardRun_keeps (s0 : GState) (out : Nat) (seed : NArray) :
    ∀ n, gradOf (backwardRun s0 out seed true) n = none → gradOf s0 n = none := by
  intro n hfin
  by_contra hne
  have hst : gradOf (updateNode s0 out (fun u => { u with grad := some seed })) n ≠ none := by
    by_cases hno : n = out
    · subst hno
      obtain ⟨t0, ht0⟩ : ∃ t0, lookupNode s0 n = some t0 := by
        cases h2 : lookupNode s0 n with
        | none =>
          exfalso
          apply hne
          unfold gradOf
          rw [h2]
          rfl
        | some u => exact ⟨u, rfl⟩
      rw [gradOf_update_self s0 n (some seed) t0 ht0]
      simp
    · rw [gradOf_update_ne s0 out _ n hno]
      exact hne
  simp only [backwardRun] at hfin
  exact loop_keeps out _ _ n hst hfin

/-- C8: when `backward` returns successfully with `keep_grads` false, every
intermediate node of the processed order that carries a gradient function
and is not the output ends with its `grad` cleared to `None`; with
`keep_grads` true no gradient is ever cleared. -/
theorem C8_memory_policy (s : GState) (out : Nat) (gr : Option NArray) (kg : Bool)
    (hWF : WFb s = true) (hok : (backward s out gr kg).2 = none) :
    (kg = false →
      ∀ n ∈ (build_topo (clear_stale_tensors s) (out + 1) out ([], [])).2, n ≠ out →
        ∀ tn, lookupNode (clear_stale_tensors s) n = some tn →
          tn.tensor_type = TensorType.INTERMEDIATE → tn.grad_fn ≠ none →
          gradOf (backward s out gr kg).1 n = none) ∧
    (kg = true → ∀ n, gradOf (backward s out gr kg).1 n = none → gradOf s n = none) := by
  obtain ⟨seed, hrun⟩ : ∃ seed,
      (backward s out gr kg).1 = backwardRun (clear_stale_tensors s) out seed kg := by
    cases hl : lookupNode (clear_stale_tensors s) out with
    | none =>
      exfalso
      simp [backward, hl] at hok
    | some t =>
      by_cases hr : t.requires_grad = true
      · cases gr with
        | some sd => exact ⟨sd, by simp [backward, hl, hr]⟩
        | none =>
          by_cases hsz : t.data.size = 1
          · exact ⟨NArray.onesLike t.data, by simp [backward, hl, hr, hsz]⟩
          · exfalso
            simp [backward, hl, hr, hsz] at hok
      · exfalso
        simp [backward, hl, hr] at hok
  rw [hrun]
  constructor
  · intro hkg n hn hno tn htn hty hgf
    subst hkg
    exact backwardRun_clears (clear_stale_tensors s) out seed (WFb_clear s hWF) n hn
      ⟨hno, tn, htn, hty, hgf⟩
  · intro hkg n hfin
    subst hkg
    have h2 := backwardRun_keeps (clear_stale_tensors s) out seed n hfin
    rw [gradOf_clear] at h2
    exact h2

/-- Witness for C8 on the diamond graph: after `backward` on `d` (id 3), the
intermediate `m = a * 2` (id 1) has no gradient. -/
theorem C8_memory_policy_witness :
    WFb c1state = true ∧
    (backward c1state 3 none false).2 = none ∧
    ((false = false →
      ∀ n ∈ (build_topo (clear_stale_tensors c1state) (3 + 1) 3 ([], [])).2, n ≠ 3 →
        ∀ tn, lookupNode (clear_stale_tensors c1state) n = some tn →
          tn.tensor_type = TensorType.INTERMEDIATE → tn.grad_fn ≠ none →
          gradOf (backward c1state 3 none false).1 n = none) ∧
    (false = true → ∀ n, gradOf (backward c1state 3 none false).1 n = none →
      gradOf c1state n = none)) :=
  ⟨by decide, by decide,
    C8_memory_policy c1state 3 none false (by decide) (by decide)⟩

end ClumsyGrad

/-! ## Claim C3: gradient accumulation across repeated backward calls -/

namespace ClumsyGrad

/-- `a = Parameter([1.0])`, `m = a * 2`, then `m.backward()` (so
`a.grad = [2.0]`, `m.grad = [1.0]`). -/
def c3base : GState :=
  (mul (mkTensor emptyState ⟨[1], [1]⟩ TensorType.PARAMETER).1 0 (PyVal.scalar 2)).1

/-- `c3base` after `m.backward()`, extended with `c = m * 3`:
`m` is now an intermediate node of `c`'s graph while still carrying the
gradient from the first pass. -/
def c3state : GState :=
  (mul (backward c3base 1 none false).1 1 (PyVal.scalar 3)).1

/-- `c3base` after `m.backward()`, extended with `b2 = a * 3`
(the example of the spec: the second product hangs off the leaf itself). -/
def c3ex : GState :=
  (mul (backward c3base 1 none false).1 0 (PyVal.scalar 3)).1

/-- The leaf `a` as it stands in `c3ex`, carrying `grad = [2.0]` from the
first backward pass. -/
def c3leaf : Tensor :=
  { data := ⟨[1], [1]⟩, grad_fn := none, grad := some ⟨[1], [2]⟩
    tensor_type := TensorType.PARAMETER, requires_grad := true
    stale := false, parents := [], children := [1, 2], extra := [], version := 0 }

/-- Refutation of the claim's universal "no grad is ever implicitly reset":
in `c3state` the node `m` (id 1) carries `grad = [1.0]` from the first
backward call, yet the second call `c.backward()` succeeds and leaves
`m.grad = None` (the default memory-saving policy clears intermediates). -/
theorem C3_counterexample :
    gradOf c3state 1 = some ⟨[1], [1]⟩ ∧
    (backward c3state 2 none false).2 = none ∧
    gradOf (backward c3state 2 none false).1 1 = none := by
  refine ⟨by decide, by decide, by decide⟩

theorem accumulate_accum (st : GState) (pairs : List (Nat × NArray)) (n : Nat)
    (g : NArray) (h : gradOf st n = some g) :
    ∃ c : List NArray, gradOf (accumulate st pairs) n = some (c.foldl NArray.addN g) := by
  rw [accumulate_spec]
  split
  · rw [h, foldContrib_some_eq]
    exact ⟨_, rfl⟩
  · exact ⟨[], h⟩

theorem processNode_accum (st : GState) (selfId : Nat) (kg : Bool) (nid n : Nat)
    (tn : Tensor) (hn : lookupNode st n = some tn)
    (hty : tn.tensor_type ≠ TensorType.INTERMEDIATE)
    (g : NArray) (h : gradOf st n = some g) :
    ∃ c : List NArray,
      gradOf (processNode st selfId kg nid) n = some (c.foldl NArray.addN g) := by
  cases hl : lookupNode st nid with
  | none =>
    refine ⟨[], ?_⟩
    have hid : processNode st selfId kg nid = st := by simp [processNode, hl]
    rw [hid]
    exact h
  | some tb =>
    cases hf : tb.grad_fn with
    | none =>
      refine ⟨[], ?_⟩
      have hid : processNode st selfId kg nid = st := by simp [processNode, hl, hf]
      rw [hid]
      exact h
    | some f =>
      cases hg : tb.grad with
      | none =>
        refine ⟨[], ?_⟩
        have hid : processNode st selfId kg nid = st := by simp [processNode, hl, hf, hg]
        rw [hid]
        exact h
      | some gb =>
        obtain ⟨c, hc⟩ := accumulate_accum st (tb.parents.zip (applyGradFn st tb f gb)) n g h
        by_cases hcond : ¬ kg = true ∧ tb.tensor_type = TensorType.INTERMEDIATE ∧ nid ≠ selfId
        · have hne : n ≠ nid := by
            intro he
            rw [he, hl] at hn
            injection hn with he2
            apply hty
            rw [← he2]
            exact hcond.2.1
          refine ⟨c, ?_⟩
          have hid : processNode st selfId kg nid
              = updateNode (accumulate st (tb.parents.zip (applyGradFn st tb f gb))) nid
                  (fun u => { u with grad := none }) := by
            simp only [processNode, hl, hf, hg]
            rw [if_pos hcond]
          rw [hid, gradOf_update_ne _ _ _ _ hne]
          exact hc
        · refine ⟨c, ?_⟩
          have hid : processNode st selfId kg nid
              = accumulate st (tb.parents.zip (applyGradFn st tb f gb)) := by
            simp only [processNode, hl, hf, hg]
            rw [if_neg hcond]
          rw [hid]
          exact hc

theorem loop_accum (selfId : Nat) (kg : Bool) (s0 : GState) :
    ∀ (r : List Nat) (st : GState),
      (∀ j, (lookupNode st j).map eraseGrad = (lookupNode s0 j).map eraseGrad) →
      ∀ n tn, lookupNode s0 n = some tn →
        tn.tensor_type ≠ TensorType.INTERMEDIATE →
        ∀ g, gradOf st n = some g →
        ∃ c : List NArray,
          gradOf (r.foldl (fun a nid => processNode a selfId kg nid) st) n
            = some (c.foldl NArray.addN g) := by
  intro r
  induction r with
  | nil =>
    intro st _ n tn _ _ g h
    exact ⟨[], h⟩
  | cons b r' ih =>
    intro st hagree n tn hn hty g h
    rw [List.foldl_cons]
    obtain ⟨tn', hn', hty'⟩ : ∃ tn', lookupNode st n = some tn'
        ∧ tn'.tensor_type ≠ TensorType.INTERMEDIATE := by
      have hpr := hagree n
      rw [hn] at hpr
      cases h2 : lookupNode st n with
      | none => rw [h2] at hpr; simp at hpr
      | some u =>
        rw [h2] at hpr
        have he : eraseGrad u = eraseGrad tn := by simpa using hpr
        refine ⟨u, rfl, ?_⟩
        have ht2 : u.tensor_type = tn.tensor_type := by
          have : (eraseGrad u).tensor_type = (eraseGrad tn).tensor_type := by rw [he]
          simpa [eraseGrad] using this
        rw [ht2]
        exact hty
    obtain ⟨c1, hc1⟩ := processNode_accum st selfId kg b n tn' hn' hty' g h
    have hagree' : ∀ j, (lookupNode (processNode st selfId kg b) j).map eraseGrad
        = (lookupNode s0 j).map eraseGrad :=
      fun j => (processNode_eraseGrad st selfId kg b j).trans (hagree j)
    obtain ⟨c2, hc2⟩ := ih (processNode st selfId kg b) hagree' n tn hn hty
      (c1.foldl NArray.addN g) hc1
    refine ⟨c1 ++ c2, ?_⟩
    rw [hc2, List.foldl_append]

/-- C3 (amended): for any node other than the output that is not an
intermediate node (a leaf: input or parameter), a `backward` call only ever
accumulates further element-wise sums onto an existing gradient — it never
resets it; and on the spec's example (`a = [1.0]`, `backward(a*2)` then
`backward(a*3)`) the leaf ends with `grad = [5.0]`.  (The universal
"no grad is ever implicitly reset" is refuted by `C3_counterexample`:
intermediates are cleared by the default memory-saving policy.) -/
theorem C3_gradient_accumulation (s : GState) (out : Nat) (gr : Option NArray)
    (kg : Bool) (n : Nat) (tn : Tensor)
    (hn : lookupNode s n = some tn)
    (hty : tn.tensor_type ≠ TensorType.INTERMEDIATE)
    (hno : n ≠ out) (g : NArray) (hg : gradOf s n = some g) :
    (∃ d : List NArray,
      gradOf (backward s out gr kg).1 n = some (d.foldl NArray.addN g)) ∧
    (gradOf c3ex 0 = some ⟨[1], [2]⟩ ∧
      (backward c3ex 2 none false).2 = none ∧
      gradOf (backward c3ex 2 none false).1 0 = some ⟨[1], [5]⟩) := by
  refine ⟨?_, by decide, by decide, by decide⟩
  have hgc : gradOf (clear_stale_tensors s) n = some g := by
    rw [gradOf_clear]
    exact hg
  obtain ⟨tc, htc, htyc⟩ : ∃ tc, lookupNode (clear_stale_tensors s) n = some tc
      ∧ tc.tensor_type ≠ TensorType.INTERMEDIATE := by
    have hpr := clear_eraseLinks s n
    rw [hn] at hpr
    cases h2 : lookupNode (clear_stale_tensors s) n with
    | none => rw [h2] at hpr; simp at hpr
    | some u =>
      rw [h2] at hpr
      have he : eraseLinks u = eraseLinks tn := by simpa using hpr
      refine ⟨u, rfl, ?_⟩
      have ht2 : u.tensor_type = tn.tensor_type := by
        have : (eraseLinks u).tensor_type = (eraseLinks tn).tensor_type := by rw [he]
        simpa [eraseLinks] using this
      rw [ht2]
      exact hty
  have hrunCase : ∀ seed : NArray,
      ∃ d : List NArray,
        gradOf (backwardRun (clear_stale_tensors s) out seed kg) n
          = some (d.foldl NArray.addN g) := by
    intro seed
    have hgu : gradOf (updateNode (clear_stale_tensors s) out
        (fun u => { u with grad := some seed })) n = some g := by
      rw [gradOf_update_ne _ _ _ _ hno]
      exact hgc
    have hlu : lookupNode (updateNode (clear_stale_tensors s) out
        (fun u => { u with grad := some seed })) n = some tc := by
      rw [lookup_update_ne _ _ _ _ hno]
      exact htc
    have := loop_accum out kg
      (updateNode (clear_stale_tensors s) out (fun u => { u with grad := some seed }))
      ((build_topo (clear_stale_tensors s) (out + 1) out ([], [])).2).reverse
      (updateNode (clear_stale_tensors s) out (fun u => { u with grad := some seed }))
      (fun j => rfl) n tc hlu htyc g hgu
    simpa [backwardRun] using this
  cases hl : lookupNode (clear_stale_tensors s) out with
  | none =>
    refine ⟨[], ?_⟩
    have hid : (backward s out gr kg).1 = clear_stale_tensors s := by
      simp [backward, hl]
    rw [hid]
    exact hgc
  | some t =>
    by_cases hr : t.requires_grad = true
    · cases gr with
      | some sd =>
        have hid : (backward s out (some sd) kg).1
            = backwardRun (clear_stale_tensors s) out sd kg := by
          simp [backward, hl, hr]
        rw [hid]
        exact hrunCase sd
      | none =>
        by_cases hsz : t.data.size = 1
        · have hid : (backward s out none kg).1
              = backwardRun (clear_stale_tensors s) out (NArray.onesLike t.data) kg := by
            simp [backward, hl, hr, hsz]
          rw [hid]
          exact hrunCase (NArray.onesLike t.data)
        · refine ⟨[], ?_⟩
          have hid : (backward s out none kg).1 = clear_stale_tensors s := by
            simp [backward, hl, hr, hsz]
          rw [hid]
          exact hgc
    · refine ⟨[], ?_⟩
      have hid : (backward s out gr kg).1 = clear_stale_tensors s := by
        simp [backward, hl, hr]
      rw [hid]
      exact hgc

/-- Witness for C3 on the spec's own example: the leaf `a` of `c3ex`, whose
gradient is `[2.0]` after the first pass, only accumulates in the second. -/
theorem C3_gradient_accumulation_witness :
    lookupNode c3ex 0 = some c3leaf ∧
    c3leaf.tensor_type ≠ TensorType.INTERMEDIATE ∧
    (0 : Nat) ≠ 2 ∧
    gradOf c3ex 0 = some ⟨[1], [2]⟩ ∧
    ((∃ d : List NArray,
        gradOf (backward c3ex 2 none false).1 0
          = some (d.foldl NArray.addN ⟨[1], [2]⟩)) ∧
      (gradOf c3ex 0 = some ⟨[1], [2]⟩ ∧
        (backward c3ex 2 none false).2 = none ∧
        gradOf (backward c3ex 2 none false).1 0 = some ⟨[1], [5]⟩)) :=
  ⟨by decide, by decide, by decide, by decide,
    C3_gradient_accumulation c3ex 2 none false 0 c3leaf (by decide) (by decide)
      (by decide) ⟨[1], [2]⟩ (by decide)⟩

end ClumsyGrad
